import Mathlib

/-!
Verification of the Chinchón rules engine (package `chinchon`).

The definitions below are a shallow embedding of the Go sources
`chinchon.go`, `actions.go`, `action_draw_card.go`, `action_discard_card.go`
and `action_meld_cards.go`.  Mutation of the authoritative `GameState` is
modelled by explicit state passing; the early-return error paths of
`GameState.RunAction` are modelled by returning the state current at the
return point together with an optional error.  The card/deck source file and
the confirm-round action file are not part of the sources; the few facts
needed from them are modelled from the specification and marked as such.
-/

namespace Chinchon

/-- A playing card: rank (`Number`, an int in the source) and suit (a string
in the source, e.g. `rankGroups : map[int][]Card`, `suitGroups : map[string][]Card`). -/
structure Card where
  number : Int
  suit : String
deriving DecidableEq, Repr

/-- `MeldType` is a string type in the source (`type MeldType string`). -/
abbrev MeldType := String

def MeldTypeSet : MeldType := "set"

def MeldTypeRun : MeldType := "run"

/-- A melded combination of cards. -/
structure Meld where
  type : MeldType
  cards : List Card
deriving DecidableEq, Repr

/-- A player's hand.  The source accesses it through its `Revealed` card list. -/
structure Hand where
  revealed : List Card
deriving DecidableEq, Repr

/-- A pile of cards; the top of the pile is the end of the list, as in the
source where `TopCard`/`DrawCard` act on `Cards[len(Cards)-1]`. -/
structure Pile where
  cards : List Card
deriving DecidableEq, Repr

/-- Per-seat player data. -/
structure Player where
  hand : Hand
  melds : List Meld
  score : Int
deriving DecidableEq, Repr

def DRAW_FROM_DRAW_PILE : String := "draw_from_draw_pile"

def DRAW_FROM_DISCARD_PILE : String := "draw_from_discard_pile"

def DISCARD_CARD : String := "discard_card"

def MELD_CARDS : String := "meld_cards"

def KNOCK : String := "knock"

def CONFIRM_ROUND_FINISHED : String := "confirm_round_finished"

/-- The tagged record produced by `SerializeAction`: the JSON object holds the
action name, the acting player id, and the variant-specific fields (absent
fields are `none`). -/
structure SerializedAction where
  name : String
  playerID : Int
  card : Option Card := none
  cards : Option (List Card) := none
  meldType : Option MeldType := none
deriving DecidableEq, Repr

/-- A log entry of one applied action. -/
structure ActionLog where
  playerID : Int
  action : SerializedAction
deriving DecidableEq, Repr

/-- Log of one round.  `HandsDealt`/`MeldsDealt` are maps keyed by the two
player ids 0 and 1 in the source and are modelled as one field per player. -/
structure RoundLog where
  handsDealt0 : Hand
  handsDealt1 : Hand
  meldsDealt0 : List Meld
  meldsDealt1 : List Meld
  knockedPlayerID : Int
  winnerPlayerID : Int
  loserPlayerID : Int
  winnerDeadwoodPoints : Int
  loserDeadwoodPoints : Int
  pointsAwarded : Int
  actionsLog : List ActionLog
deriving DecidableEq, Repr

/-- The zero-valued `&RoundLog{}` sentinel placed at index 0 of `RoundsLog`. -/
def emptyRoundLog : RoundLog :=
  ⟨⟨[]⟩, ⟨[]⟩, [], [], 0, 0, 0, 0, 0, 0, []⟩

/-- The closed set of action variants.  Constructor arguments follow the
`NewAction*` constructors of `actions.go`. -/
inductive Action where
  | drawFromDrawPile (playerID : Int)
  | drawFromDiscardPile (playerID : Int)
  | discardCard (card : Card) (playerID : Int)
  | meldCards (cards : List Card) (meldType : MeldType) (playerID : Int)
  | knock (playerID : Int)
  | confirmRoundFinished (playerID : Int)
deriving DecidableEq, Repr

/-- `act.GetPlayerID()`. -/
def Action.playerID : Action → Int
  | .drawFromDrawPile pid => pid
  | .drawFromDiscardPile pid => pid
  | .discardCard _ pid => pid
  | .meldCards _ _ pid => pid
  | .knock pid => pid
  | .confirmRoundFinished pid => pid

/-- `act.GetName()`; the `NewAction*` constructors always store the name
matching the variant. -/
def Action.name : Action → String
  | .drawFromDrawPile _ => DRAW_FROM_DRAW_PILE
  | .drawFromDiscardPile _ => DRAW_FROM_DISCARD_PILE
  | .discardCard _ _ => DISCARD_CARD
  | .meldCards _ _ _ => MELD_CARDS
  | .knock _ => KNOCK
  | .confirmRoundFinished _ => CONFIRM_ROUND_FINISHED

/-- Error kinds returned by `GameState.RunAction`. -/
inductive GameErr where
  | gameEnded
  | notYourTurn
  | actionNotPossible
deriving DecidableEq, Repr

/-- The authoritative game state.  The private `deck` field is not stored:
the freshly shuffled deck a round plays from is passed to `startNewRound`
explicitly (the deck source file is not part of the sources; per the spec the
deck is reshuffled into a full 40-card order at every round start). -/
structure GameState where
  roundNumber : Nat
  turnPlayerID : Int
  turnOpponentPlayerID : Int
  player0 : Player
  player1 : Player
  possibleActions : List SerializedAction
  drawPile : Pile
  discardPile : Pile
  hasDrawnThisTurn : Bool
  hasDiscardedThisTurn : Bool
  knockedPlayerID : Int
  isRoundFinished : Bool
  isGameEnded : Bool
  winnerPlayerID : Int
  roundsLog : List RoundLog
  roundFinishedConfirmedPlayerIDs : List Int
  ruleMaxPoints : Int
deriving DecidableEq, Repr

/-- `g.Players[pid]` for the two seats 0 and 1. -/
def GameState.getPlayer (g : GameState) (pid : Int) : Player :=
  if pid = 0 then g.player0 else g.player1

/-- Store back `g.Players[pid]`. -/
def GameState.setPlayer (g : GameState) (pid : Int) (p : Player) : GameState :=
  if pid = 0 then {g with player0 := p} else {g with player1 := p}

/-- `GameState.OpponentOf`: the other of the two seat ids. -/
def opponentOf (pid : Int) : Int :=
  if pid = 0 then 1 else 0

/-- The live entry `g.RoundsLog[g.RoundNumber]`. -/
def GameState.currentRoundLog (g : GameState) : RoundLog :=
  g.roundsLog.getD g.roundNumber emptyRoundLog

/-- Write back the live entry `g.RoundsLog[g.RoundNumber]`. -/
def GameState.setCurrentRoundLog (g : GameState) (rl : RoundLog) : GameState :=
  {g with roundsLog := g.roundsLog.set g.roundNumber rl}

/-- Deadwood value of a single card: 1-7 face value, everything else 10. -/
def cardDeadwoodValue (c : Card) : Int :=
  if 1 ≤ c.number ∧ c.number ≤ 7 then c.number else 10

/-- All cards appearing in a list of melds. -/
def meldsCards (melds : List Meld) : List Card :=
  melds.flatMap (fun m => m.cards)

/-- Membership in the `meldedCards` set built by `calculateDeadwoodPoints`. -/
def isMelded (melds : List Meld) (c : Card) : Bool :=
  (meldsCards melds).contains c

/-- `calculateDeadwoodPoints`: sum of deadwood values of unmelded hand cards. -/
def calculateDeadwoodPoints (hand : List Card) (melds : List Meld) : Int :=
  ((hand.filter (fun c => !(isMelded melds c))).map cardDeadwoodValue).sum

/-- One pass of the exchange sort used by the source (`for j := i+1; ...`):
scans the remaining cards, swapping whenever the current front is larger.
Returns the final front card (the minimum) and the rest as left by the pass. -/
def innerPass : Card → List Card → Card × List Card
  | x, [] => (x, [])
  | x, y :: t =>
    if y.number < x.number then
      ((innerPass y t).1, x :: (innerPass y t).2)
    else
      ((innerPass x t).1, y :: (innerPass x t).2)

theorem innerPass_snd_length (x : Card) (t : List Card) :
    (innerPass x t).2.length = t.length := by
  induction t generalizing x with
  | nil => simp [innerPass]
  | cons y t ih =>
    simp only [innerPass]
    split <;> simp [ih]

/-- The in-place double-loop sort of the source (`sortedCards`), rendered as
selection of the minimum by `innerPass` followed by sorting the remainder. -/
def selSort : List Card → List Card
  | [] => []
  | x :: t =>
    (innerPass x t).1 :: selSort (innerPass x t).2
termination_by l => l.length
decreasing_by
  simp [innerPass_snd_length]

/-- The duplicate-suit scan of `ActionMeldCards.isValidSet`. -/
def suitsNodupLoop : List String → List Card → Bool
  | _, [] => true
  | seen, c :: t =>
    if seen.contains c.suit then false else suitsNodupLoop (c.suit :: seen) t

/-- `ActionMeldCards.isValidSet`: at least 3 cards, all of the first card's
rank, no suit repeated. -/
def meldIsValidSet (cards : List Card) : Bool :=
  if cards.length < 3 then false
  else cards.all (fun c => c.number = (cards.headD ⟨0, ""⟩).number) &&
    suitsNodupLoop [] cards

/-- The consecutive-numbers scan of `ActionMeldCards.isValidRun`
(`sorted[i].Number == sorted[i-1].Number+1`). -/
def consecCheckB : List Card → Bool
  | [] => true
  | [_] => true
  | x :: y :: t => decide (y.number = x.number + 1) && consecCheckB (y :: t)

/-- `ActionMeldCards.isValidRun`: at least 3 cards, all of the first card's
suit, consecutive numbers once sorted. -/
def meldIsValidRun (cards : List Card) : Bool :=
  if cards.length < 3 then false
  else cards.all (fun c => c.suit = (cards.headD ⟨0, ""⟩).suit) &&
    consecCheckB (selSort cards)

/-- `ActionMeldCards.isValidMeld`. -/
def meldIsValidMeld (cards : List Card) (mt : MeldType) : Bool :=
  if cards.length < 3 then false
  else if mt = MeldTypeSet then meldIsValidSet cards
  else if mt = MeldTypeRun then meldIsValidRun cards
  else false

/-- The single loop of `GameState.isValidSet`: every card must have the given
rank and a suit not seen before. -/
def setLoop (rank : Int) : List String → List Card → Bool
  | _, [] => true
  | seen, c :: t =>
    if c.number ≠ rank then false
    else if seen.contains c.suit then false
    else setLoop rank (c.suit :: seen) t

/-- `GameState.isValidSet` (the generator-side check). -/
def isValidSet (cards : List Card) : Bool :=
  if cards.length < 3 then false
  else setLoop ((cards.headD ⟨0, ""⟩).number) [] cards

/-- `GameState.generateCombinations`: all size-`k` combinations, first card
included then excluded.  (The source's early return for short lists yields
the same empty result the recursion produces.) -/
def generateCombinations : List Card → Nat → List (List Card)
  | _, 0 => [[]]
  | [], _ + 1 => []
  | x :: t, k + 1 =>
    if (x :: t).length < k + 1 then []
    else ((generateCombinations t k).map (fun combo => x :: combo)) ++
      generateCombinations t (k + 1)

/-- `GameState.generateSetMeldActions`: group by rank, take all 3-card
combinations of each rank group of size ≥ 3, keep the valid sets.  The Go map
iteration is rendered as iteration over the ranks in first-occurrence order. -/
def generateSetMeldActions (hand : List Card) (playerID : Int) : List Action :=
  ((hand.map (fun c => c.number)).dedup).flatMap (fun rank =>
    let cards := hand.filter (fun c => c.number = rank)
    if 3 ≤ cards.length then
      (generateCombinations cards 3).filterMap (fun combo =>
        if isValidSet combo then some (Action.meldCards combo MeldTypeSet playerID)
        else none)
    else [])

/-- The inner scan of `findConsecutiveRuns`: extend the current run while the
next card's number is the successor; returns the run and the remainder. -/
def splitBlock : Card → List Card → List Card × List Card
  | x, [] => ([x], [])
  | x, y :: t =>
    if y.number = x.number + 1 then
      (x :: (splitBlock y t).1, (splitBlock y t).2)
    else ([x], y :: t)

theorem splitBlock_snd_length (x : Card) (t : List Card) :
    (splitBlock x t).2.length ≤ t.length := by
  induction t generalizing x with
  | nil => simp [splitBlock]
  | cons y t ih =>
    simp only [splitBlock]
    split
    · exact le_trans (ih y) (Nat.le_succ _)
    · simp

/-- The sub-run emission of `findConsecutiveRuns`: for every length 3..L and
every start index, the corresponding slice `runCards[startIdx:startIdx+length]`. -/
def subRuns (b : List Card) : List (List Card) :=
  (List.range (b.length - 2)).flatMap (fun li =>
    (List.range (b.length - (li + 3) + 1)).map (fun st => (b.drop st).take (li + 3)))

/-- `GameState.findConsecutiveRuns` on a sorted list: split off maximal
consecutive blocks, emitting all sub-runs of each block of length ≥ 3. -/
def findConsecutiveRuns : List Card → List (List Card)
  | [] => []
  | x :: t =>
    (if 3 ≤ (splitBlock x t).1.length then subRuns (splitBlock x t).1 else []) ++
      findConsecutiveRuns (splitBlock x t).2
termination_by l => l.length
decreasing_by
  exact Nat.lt_succ_of_le (splitBlock_snd_length x t)

/-- `GameState.generateRunMeldActions`: group by suit, sort each group of
size ≥ 3, emit every consecutive run found.  The Go map iteration is rendered
as iteration over the suits in first-occurrence order. -/
def generateRunMeldActions (hand : List Card) (playerID : Int) : List Action :=
  ((hand.map (fun c => c.suit)).dedup).flatMap (fun s =>
    let cards := hand.filter (fun c => c.suit = s)
    if 3 ≤ cards.length then
      (findConsecutiveRuns (selSort cards)).map
        (fun run => Action.meldCards run MeldTypeRun playerID)
    else [])

/-- `generatePossibleMeldActions`: sets then runs. -/
def generatePossibleMeldActions (g : GameState) (playerID : Int) : List Action :=
  generateSetMeldActions (g.getPlayer playerID).hand.revealed playerID ++
    generateRunMeldActions (g.getPlayer playerID).hand.revealed playerID

/-- The legality predicate of each action variant (`IsPossible`).
The confirm-round variant's source file is absent; its predicate is
modelled from the spec: legal exactly when the round is finished, with no
turn-ownership restriction. -/
def isPossible (a : Action) (g : GameState) : Bool :=
  match a with
  | .drawFromDrawPile pid =>
    decide (g.turnPlayerID = pid) && !g.hasDrawnThisTurn &&
      !g.drawPile.cards.isEmpty && !g.isRoundFinished
  | .drawFromDiscardPile pid =>
    decide (g.turnPlayerID = pid) && !g.hasDrawnThisTurn &&
      !g.discardPile.cards.isEmpty && !g.isRoundFinished
  | .discardCard c pid =>
    decide (g.turnPlayerID = pid) && g.hasDrawnThisTurn &&
      !g.hasDiscardedThisTurn && !g.isRoundFinished &&
      (g.getPlayer pid).hand.revealed.contains c
  | .meldCards cards mt pid =>
    decide (g.turnPlayerID = pid) && !g.isRoundFinished &&
      cards.all (fun c => (g.getPlayer pid).hand.revealed.contains c) &&
      meldIsValidMeld cards mt
  | .knock pid =>
    decide (g.turnPlayerID = pid) && g.hasDrawnThisTurn &&
      g.hasDiscardedThisTurn && !g.isRoundFinished &&
      decide (calculateDeadwoodPoints (g.getPlayer pid).hand.revealed
        (g.getPlayer pid).melds ≤ 10)
  | .confirmRoundFinished _ => g.isRoundFinished

/-- `YieldsTurn`: drawing keeps the turn, everything else yields it (the meld
and confirm variants inherit the `act` default, which returns true). -/
def yieldsTurn (a : Action) (_ : GameState) : Bool :=
  match a with
  | .drawFromDrawPile _ => false
  | .drawFromDiscardPile _ => false
  | _ => true

/-- `calculateRoundScore`: deadwood comparison, winner/loser bookkeeping in
the live round log, gin and undercut bonuses, and the score update.  Note
that, as in the source, the tie-break and undercut checks read the round
log's `KnockedPlayerID` field as it stands when this function runs. -/
def calculateRoundScore (g : GameState) : GameState :=
  let rl := g.currentRoundLog
  let d0 := calculateDeadwoodPoints g.player0.hand.revealed g.player0.melds
  let d1 := calculateDeadwoodPoints g.player1.hand.revealed g.player1.melds
  let rl1 := {rl with
    winnerDeadwoodPoints := d0
    loserDeadwoodPoints := d1
    winnerPlayerID := 0
    loserPlayerID := 1}
  let rl2 :=
    if d1 < d0 then
      {rl1 with
        winnerDeadwoodPoints := d1
        loserDeadwoodPoints := d0
        winnerPlayerID := 1
        loserPlayerID := 0}
    else if d1 = d0 then
      if rl1.knockedPlayerID = 0 then {rl1 with winnerPlayerID := 1, loserPlayerID := 0}
      else {rl1 with winnerPlayerID := 0, loserPlayerID := 1}
    else rl1
  let basePoints := rl2.loserDeadwoodPoints - rl2.winnerDeadwoodPoints
  let ginPoints := if rl2.winnerDeadwoodPoints = 0 then basePoints + 25 else basePoints
  let points :=
    if rl2.knockedPlayerID ≠ -1 ∧ rl2.knockedPlayerID ≠ rl2.winnerPlayerID then
      ginPoints + 10
    else ginPoints
  let g1 := g.setCurrentRoundLog {rl2 with pointsAwarded := points}
  let w := g1.getPlayer rl2.winnerPlayerID
  g1.setPlayer rl2.winnerPlayerID {w with score := w.score + points}

/-- Insertion into the `RoundFinishedConfirmedPlayerIDs` set
(`map[int]bool` with values set to true). -/
def insertConfirmed (l : List Int) (pid : Int) : List Int :=
  if l.contains pid then l else l ++ [pid]

/-- The effect (`Run`) of each action variant.  Every variant re-checks its
own legality first and fails with `ActionNotPossible` before any mutation,
as in the source.  The confirm-round variant is modelled from the spec:
it records the actor id in the confirmed-set for this round. -/
def runEffect (a : Action) (g : GameState) : Option GameErr × GameState :=
  match a with
  | .drawFromDrawPile pid =>
    if isPossible a g = false then (some .actionNotPossible, g)
    else
      match g.drawPile.cards.getLast? with
      | none => (none, g)
      | some c =>
        let g1 := {g with drawPile := ⟨g.drawPile.cards.dropLast⟩}
        let p := g1.getPlayer pid
        (none, {g1.setPlayer pid {p with hand := ⟨p.hand.revealed ++ [c]⟩} with
          hasDrawnThisTurn := true})
  | .drawFromDiscardPile pid =>
    if isPossible a g = false then (some .actionNotPossible, g)
    else
      match g.discardPile.cards.getLast? with
      | none => (none, g)
      | some c =>
        let g1 := {g with discardPile := ⟨g.discardPile.cards.dropLast⟩}
        let p := g1.getPlayer pid
        (none, {g1.setPlayer pid {p with hand := ⟨p.hand.revealed ++ [c]⟩} with
          hasDrawnThisTurn := true})
  | .discardCard c pid =>
    if isPossible a g = false then (some .actionNotPossible, g)
    else
      let p := g.getPlayer pid
      let g1 := g.setPlayer pid {p with hand := ⟨p.hand.revealed.filter (fun hc => hc ≠ c)⟩}
      (none, {g1 with
        discardPile := ⟨g1.discardPile.cards ++ [c]⟩
        hasDiscardedThisTurn := true})
  | .meldCards cards mt pid =>
    if isPossible a g = false then (some .actionNotPossible, g)
    else
      let p := g.getPlayer pid
      (none, g.setPlayer pid {p with
        hand := ⟨p.hand.revealed.filter (fun hc => !(cards.contains hc))⟩,
        melds := p.melds ++ [⟨mt, cards⟩]})
  | .knock pid =>
    if isPossible a g = false then (some .actionNotPossible, g)
    else
      let g1 := {g with knockedPlayerID := pid}
      let g2 := calculateRoundScore g1
      let g3 := g2.setCurrentRoundLog {g2.currentRoundLog with
        knockedPlayerID := pid
        meldsDealt0 := g2.player0.melds
        meldsDealt1 := g2.player1.melds}
      (none, {g3 with isRoundFinished := true})
  | .confirmRoundFinished pid =>
    if isPossible a g = false then (some .actionNotPossible, g)
    else
      (none,
        {g with roundFinishedConfirmedPlayerIDs :=
            insertConfirmed g.roundFinishedConfirmedPlayerIDs pid})

/-- `CalculatePossibleActions`: candidates by phase, filtered by legality
(the `Enrich` hook is a no-op for every variant present). -/
def calculatePossibleActions (g : GameState) : List Action :=
  let allActions :=
    if g.isRoundFinished then
      [Action.confirmRoundFinished g.turnPlayerID,
        Action.confirmRoundFinished g.turnOpponentPlayerID]
    else if !g.hasDrawnThisTurn then
      [Action.drawFromDrawPile g.turnPlayerID,
        Action.drawFromDiscardPile g.turnPlayerID]
    else if !g.hasDiscardedThisTurn then
      (g.getPlayer g.turnPlayerID).hand.revealed.map
        (fun c => Action.discardCard c g.turnPlayerID)
    else
      Action.knock g.turnPlayerID :: generatePossibleMeldActions g g.turnPlayerID
  allActions.filter (fun a => isPossible a g)

/-- `countActionsOfTurnPlayer`. -/
def countActionsOfTurnPlayer (g : GameState) : Nat :=
  ((calculatePossibleActions g).filter
    (fun a => decide (a.playerID = g.turnPlayerID))).length

/-- `SerializeAction`: the tagged record `{name, ...variant fields}`. -/
def serializeAction : Action → SerializedAction
  | .drawFromDrawPile pid => {name := DRAW_FROM_DRAW_PILE, playerID := pid}
  | .drawFromDiscardPile pid => {name := DRAW_FROM_DISCARD_PILE, playerID := pid}
  | .discardCard c pid => {name := DISCARD_CARD, playerID := pid, card := some c}
  | .meldCards cards mt pid =>
    {name := MELD_CARDS, playerID := pid, cards := some cards, meldType := some mt}
  | .knock pid => {name := KNOCK, playerID := pid}
  | .confirmRoundFinished pid => {name := CONFIRM_ROUND_FINISHED, playerID := pid}

/-- Failure kind of `DeserializeAction` on an unrecognised name tag. -/
inductive DeserializeError where
  | unknownAction
deriving DecidableEq, Repr

/-- `DeserializeAction`: switch on the name tag into the matching variant,
reading the variant's fields (absent fields decode to Go zero values);
any other name fails with the unknown-action error. -/
def deserializeAction (s : SerializedAction) : Except DeserializeError Action :=
  if s.name = DRAW_FROM_DRAW_PILE then .ok (.drawFromDrawPile s.playerID)
  else if s.name = DRAW_FROM_DISCARD_PILE then .ok (.drawFromDiscardPile s.playerID)
  else if s.name = DISCARD_CARD then .ok (.discardCard (s.card.getD ⟨0, ""⟩) s.playerID)
  else if s.name = MELD_CARDS then
    .ok (.meldCards (s.cards.getD []) (s.meldType.getD "") s.playerID)
  else if s.name = KNOCK then .ok (.knock s.playerID)
  else if s.name = CONFIRM_ROUND_FINISHED then .ok (.confirmRoundFinished s.playerID)
  else .error .unknownAction

/-- The names recognised by `DeserializeAction`. -/
def knownActionNames : List String :=
  [DRAW_FROM_DRAW_PILE, DRAW_FROM_DISCARD_PILE, DISCARD_CARD, MELD_CARDS,
    KNOCK, CONFIRM_ROUND_FINISHED]

/-- The dealing loop of `startNewRound`: `n` times, one card to player 0 then
one card to player 1, from the front of the deck; returns both hands and the
remaining deck. -/
def dealLoop : Nat → List Card → List Card × List Card × List Card
  | 0, d => ([], [], d)
  | n + 1, c0 :: c1 :: rest =>
    ((c0 :: (dealLoop n rest).1, c1 :: (dealLoop n rest).2.1, (dealLoop n rest).2.2))
  | _ + 1, d => ([], [], d)

/-- `GameState.changeTurn`. -/
def changeTurn (g : GameState) : GameState :=
  {g with
    turnPlayerID := g.turnOpponentPlayerID
    turnOpponentPlayerID := g.turnPlayerID}

/-- `startNewRound`: alternate the starting player, deal 7 cards each, build
the draw pile from the rest of the deck and seed the discard pile with its
top card, reset the per-round state, append the round's log entry, and store
the fresh legal-action set.  `deckOrder` stands for the result of the
`deck.shuffle()` call, modelled from the spec (the deck source file is
absent): a fresh shuffled order of the full 40-card deck. -/
def startNewRound (deckOrder : List Card) (g : GameState) : GameState :=
  let newTurn := opponentOf g.turnPlayerID
  let d := dealLoop 7 deckOrder
  let hand0 : Hand := ⟨d.1⟩
  let hand1 : Hand := ⟨d.2.1⟩
  let rest := d.2.2
  let piles : Pile × Pile :=
    match rest.getLast? with
    | some c => (⟨rest.dropLast⟩, ⟨[c]⟩)
    | none => (⟨rest⟩, ⟨[]⟩)
  let newLog : RoundLog := ⟨hand0, hand1, [], [], -1, -1, -1, 0, 0, 0, []⟩
  let g1 : GameState :=
    { g with
      roundNumber := g.roundNumber + 1,
      turnPlayerID := newTurn,
      turnOpponentPlayerID := opponentOf newTurn,
      player0 := {g.player0 with hand := hand0, melds := []},
      player1 := {g.player1 with hand := hand1, melds := []},
      drawPile := piles.1,
      discardPile := piles.2,
      knockedPlayerID := -1,
      hasDrawnThisTurn := false,
      hasDiscardedThisTurn := false,
      isRoundFinished := false,
      roundFinishedConfirmedPlayerIDs := [],
      roundsLog := g.roundsLog ++ [newLog] }
  {g1 with possibleActions := (calculatePossibleActions g1).map serializeAction}

/-- `DefaultMaxPoints`. -/
def defaultMaxPoints : Int := 100

/-- `New`: the zero state (with the round-0 sentinel log and the configured
point limit) followed by the first `startNewRound`. -/
def newGame (maxPoints : Int) (deckOrder : List Card) : GameState :=
  startNewRound deckOrder
    { roundNumber := 0, turnPlayerID := 0, turnOpponentPlayerID := 1,
      player0 := ⟨⟨[]⟩, [], 0⟩, player1 := ⟨⟨[]⟩, [], 0⟩,
      possibleActions := [], drawPile := ⟨[]⟩, discardPile := ⟨[]⟩,
      hasDrawnThisTurn := false, hasDiscardedThisTurn := false,
      knockedPlayerID := -1, isRoundFinished := false, isGameEnded := false,
      winnerPlayerID := -1, roundsLog := [emptyRoundLog],
      roundFinishedConfirmedPlayerIDs := [], ruleMaxPoints := maxPoints }

/-- One iteration of the end-of-game scoring loop of `RunAction`: if the
player's score reached the limit, clamp it and fix the game winner. -/
def endGameCheckOne (g : GameState) (pid : Int) : GameState :=
  if g.ruleMaxPoints ≤ (g.getPlayer pid).score then
    let g1 := g.setPlayer pid {g.getPlayer pid with score := g.ruleMaxPoints}
    {g1 with isGameEnded := true, winnerPlayerID := pid}
  else g

/-- The `for playerID := range g.Players` loop of `RunAction`, taken in seat
order 0 then 1. -/
def endGameCheck (g : GameState) : GameState :=
  endGameCheckOne (endGameCheckOne g 0) 1

/-- Step 5 of `RunAction`: unless the action is a confirm-round action,
append it to the current round's action log under the turn player's id. -/
def postProcessLog (a : Action) (g1 : GameState) : GameState :=
  if a.name ≠ CONFIRM_ROUND_FINISHED then
    g1.setCurrentRoundLog {g1.currentRoundLog with
      actionsLog := g1.currentRoundLog.actionsLog ++
        [⟨g1.turnPlayerID, serializeAction a⟩]}
  else g1

/-- Steps 7-11 of `RunAction` (the path that does not start a new round):
turn yielding, the confirmed-player turn flip, the end-of-game scoring loop,
and the refresh of the stored legal-action set (flipping the turn once more
if the turn player has no legal action). -/
def postProcessTail (a : Action) (g2 : GameState) : GameState :=
  let g3 :=
    if g2.isGameEnded = false ∧ g2.isRoundFinished = false ∧ yieldsTurn a g2 = true then
      {g2 with
        turnPlayerID := g2.turnOpponentPlayerID
        turnOpponentPlayerID := g2.turnPlayerID
        hasDrawnThisTurn := false
        hasDiscardedThisTurn := false}
    else g2
  let g4 :=
    if g3.isGameEnded = false ∧ g3.isRoundFinished = true ∧
        g3.roundFinishedConfirmedPlayerIDs.length = 1 ∧
        g3.roundFinishedConfirmedPlayerIDs.contains g3.turnPlayerID then
      changeTurn g3
    else g3
  let g5 := endGameCheck g4
  if countActionsOfTurnPlayer g5 = 0 then
    {changeTurn g5 with possibleActions :=
      (calculatePossibleActions (changeTurn g5)).map serializeAction}
  else
    {g5 with possibleActions := (calculatePossibleActions g5).map serializeAction}

/-- Everything `RunAction` does after a successful effect: action logging,
then either the start of the next round (both players confirmed) or the
turn/score/legality post-processing. -/
def postProcess (a : Action) (deckOrder : List Card) (g1 : GameState) : GameState :=
  let g2 := postProcessLog a g1
  if g2.isGameEnded = false ∧ g2.isRoundFinished = true ∧
      g2.roundFinishedConfirmedPlayerIDs.length = 2 then
    startNewRound deckOrder g2
  else
    postProcessTail a g2

/-- `GameState.RunAction`: nil action no-op, game-ended and turn-ownership
rejections, legality check, the action's effect, then the post-processing.
The returned state is the authoritative state after the call (unchanged on
the early-return error paths, exactly as in the source). -/
def runAction (g : GameState) (a? : Option Action) (deckOrder : List Card) :
    Option GameErr × GameState :=
  match a? with
  | none => (none, g)
  | some a =>
    if g.isGameEnded = true then (some .gameEnded, g)
    else if g.isRoundFinished = false ∧ a.playerID ≠ g.turnPlayerID then
      (some .notYourTurn, g)
    else if isPossible a g = false then (some .actionNotPossible, g)
    else
      match runEffect a g with
      | (some e, g1) => (some e, g1)
      | (none, g1) => (none, postProcess a deckOrder g1)

/-- The four Spanish suits (modelled from the spec; the card source file is
absent and suit values are opaque strings to the engine). -/
def deckSuits : List String := ["oro", "copa", "espada", "basto"]

/-- The ten ranks of the 40-card deck: 1-7 and 10-12 (modelled from the spec). -/
def deckNumbers : List Int := [1, 2, 3, 4, 5, 6, 7, 10, 11, 12]

/-- The 40-card universe. -/
def fullDeckList : List Card :=
  deckSuits.flatMap (fun s => deckNumbers.map (fun n => ⟨n, s⟩))

/-- States reachable from a fresh game by successful `RunAction` calls.  The
deck order consumed whenever a round starts is an arbitrary permutation of
the 40-card deck, reflecting `deck.shuffle()`. -/
inductive Reachable : GameState → Prop where
  | base (maxPoints : Int) (deckOrder : List Card)
      (hperm : deckOrder.Perm fullDeckList) : Reachable (newGame maxPoints deckOrder)
  | step (g g1 : GameState) (a : Action) (deckOrder : List Card)
      (hperm : deckOrder.Perm fullDeckList) (hg : Reachable g)
      (hrun : runAction g (some a) deckOrder = (none, g1)) : Reachable g1

/-- All cards in play within a round: draw pile, discard pile, both hands and
both players' melds. -/
def allCards (g : GameState) : List Card :=
  g.drawPile.cards ++ g.discardPile.cards ++
    g.player0.hand.revealed ++ meldsCards g.player0.melds ++
    g.player1.hand.revealed ++ meldsCards g.player1.melds

/-- The total number of cards in play within a round. -/
def cardCount (g : GameState) : Nat := (allCards g).length

end Chinchon

namespace Chinchon

/-! ### Basic facts about `runAction` -/

theorem runEffect_error_eq (a : Action) (g g1 : GameState) (e : GameErr)
    (h : runEffect a g = (some e, g1)) : g1 = g := by
  cases a <;> simp only [runEffect] at h <;> repeat' split at h <;> simp_all

theorem runAction_success_isPossible (g : GameState) (a : Action) (d : List Card)
    (h : (runAction g (some a) d).1 = none) : isPossible a g = true := by
  simp only [runAction] at h
  by_cases h1 : g.isGameEnded = true
  · rw [if_pos h1] at h; simp at h
  · rw [if_neg h1] at h
    by_cases h2 : g.isRoundFinished = false ∧ a.playerID ≠ g.turnPlayerID
    · rw [if_pos h2] at h; simp at h
    · rw [if_neg h2] at h
      by_cases h3 : isPossible a g = false
      · rw [if_pos h3] at h; simp at h
      · simpa using h3

/-! ### Concrete states used to exercise the knock-time scoring -/

/-- A mid-round state in which it is player 0's turn, both players hold a
single 1-valued card (deadwood 1 each), player 0 has drawn and discarded,
and the live round log entry is as `startNewRound` creates it. -/
def stateC1 : GameState :=
  { roundNumber := 1, turnPlayerID := 0, turnOpponentPlayerID := 1,
    player0 := ⟨⟨[⟨1, "oro"⟩]⟩, [], 0⟩, player1 := ⟨⟨[⟨1, "copa"⟩]⟩, [], 0⟩,
    possibleActions := [], drawPile := ⟨[⟨2, "oro"⟩]⟩, discardPile := ⟨[⟨3, "oro"⟩]⟩,
    hasDrawnThisTurn := true, hasDiscardedThisTurn := true,
    knockedPlayerID := -1, isRoundFinished := false, isGameEnded := false,
    winnerPlayerID := -1,
    roundsLog := [emptyRoundLog,
      ⟨⟨[⟨1, "oro"⟩]⟩, ⟨[⟨1, "copa"⟩]⟩, [], [], -1, -1, -1, 0, 0, 0, []⟩],
    roundFinishedConfirmedPlayerIDs := [], ruleMaxPoints := 100 }

/-- Like `stateC1` but player 0 holds a 2 (deadwood 2) and player 1 a 1
(deadwood 1): a knock by player 0 is an undercut (player 1 wins). -/
def stateC2 : GameState :=
  { roundNumber := 1, turnPlayerID := 0, turnOpponentPlayerID := 1,
    player0 := ⟨⟨[⟨2, "oro"⟩]⟩, [], 0⟩, player1 := ⟨⟨[⟨1, "copa"⟩]⟩, [], 0⟩,
    possibleActions := [], drawPile := ⟨[⟨5, "oro"⟩]⟩, discardPile := ⟨[⟨3, "oro"⟩]⟩,
    hasDrawnThisTurn := true, hasDiscardedThisTurn := true,
    knockedPlayerID := -1, isRoundFinished := false, isGameEnded := false,
    winnerPlayerID := -1,
    roundsLog := [emptyRoundLog,
      ⟨⟨[⟨2, "oro"⟩]⟩, ⟨[⟨1, "copa"⟩]⟩, [], [], -1, -1, -1, 0, 0, 0, []⟩],
    roundFinishedConfirmedPlayerIDs := [], ruleMaxPoints := 100 }

/-- C1: the claim says that on an exact deadwood tie the round winner is the
player who did not knock.  In the code, `ActionKnock.Run` assigns the round
log's `KnockedPlayerID` only after `calculateRoundScore` has run, so the
tie-break reads the fresh log's `-1` and always awards the tie to player 0.
Here player 0 knocks with both deadwood totals equal to 1, the knock is
applied successfully, and the recorded round winner is player 0 — the
knocker — contradicting the claim (and the source's own tie-break comment). -/
theorem c1_tie_goes_to_knocker :
    (runAction stateC1 (some (Action.knock 0)) []).1 = none ∧
    calculateDeadwoodPoints stateC1.player0.hand.revealed stateC1.player0.melds =
      calculateDeadwoodPoints stateC1.player1.hand.revealed stateC1.player1.melds ∧
    ((runAction stateC1 (some (Action.knock 0)) []).2.currentRoundLog).winnerPlayerID = 0 := by
  decide

/-- C2: the claim says an undercut (knocker is not the round winner) adds a
+10 bonus to the points awarded.  In the code the undercut check reads the
round log's `KnockedPlayerID` before `ActionKnock.Run` has assigned it, so
it still holds `-1` and the bonus is never added.  Here player 0 knocks with
deadwood 2 against player 1's deadwood 1: player 1 wins the round
(`KnockedPlayerID = 0` in the final log, so the winner differs from the
knocker), yet `PointsAwarded` is `loser - winner = 1`, not `1 + 10`. -/
theorem c2_undercut_bonus_never_awarded :
    (runAction stateC2 (some (Action.knock 0)) []).1 = none ∧
    ((runAction stateC2 (some (Action.knock 0)) []).2.currentRoundLog).knockedPlayerID = 0 ∧
    ((runAction stateC2 (some (Action.knock 0)) []).2.currentRoundLog).winnerPlayerID = 1 ∧
    ((runAction stateC2 (some (Action.knock 0)) []).2.currentRoundLog).loserDeadwoodPoints -
      ((runAction stateC2 (some (Action.knock 0)) []).2.currentRoundLog).winnerDeadwoodPoints
      = 1 ∧
    ((runAction stateC2 (some (Action.knock 0)) []).2.currentRoundLog).pointsAwarded = 1 := by
  decide

/-- C4: rejection atomicity — whenever `RunAction` returns an error, the
authoritative state after the call is exactly the state before the call. -/
theorem c4_rejection_atomicity (g : GameState) (a? : Option Action) (d : List Card)
    (e : GameErr) (h : (runAction g a? d).1 = some e) : (runAction g a? d).2 = g := by
  cases a? with
  | none => simp [runAction] at h
  | some a =>
    simp only [runAction] at h ⊢
    by_cases h1 : g.isGameEnded = true
    · simp [h1]
    · rw [if_neg h1] at h ⊢
      by_cases h2 : g.isRoundFinished = false ∧ a.playerID ≠ g.turnPlayerID
      · simp [h2]
      · rw [if_neg h2] at h ⊢
        by_cases h3 : isPossible a g = false
        · simp [h3]
        · rw [if_neg h3] at h ⊢
          rcases hre : runEffect a g with ⟨e?, g1⟩
          simp only [hre] at h ⊢
          cases e? with
          | none => exact Option.noConfusion h
          | some e2 => exact runEffect_error_eq a g g1 e2 hre

theorem c4_rejection_atomicity_witness :
    (runAction (newGame 100 fullDeckList) (some (Action.knock 0)) []).1 =
      some GameErr.notYourTurn ∧
    (runAction (newGame 100 fullDeckList) (some (Action.knock 0)) []).2 =
      newGame 100 fullDeckList :=
  ⟨by decide, c4_rejection_atomicity _ _ _ GameErr.notYourTurn (by decide)⟩

/-- A state whose game has ended while its round is unfinished. -/
def stateC5 : GameState := {newGame 100 fullDeckList with isGameEnded := true}

/-- C5 counterexample: the claim quantifies over every game state whose round
is not finished, but when the game has already ended the `GameEnded` check
runs first, so a non-turn player's action is rejected with `GameEnded`
rather than `NotYourTurn`. -/
theorem c5_counterexample :
    stateC5.isRoundFinished = false ∧
    (Action.knock 0).playerID ≠ stateC5.turnPlayerID ∧
    (runAction stateC5 (some (Action.knock 0)) []).1 ≠ some GameErr.notYourTurn := by
  decide

/-- C5 (amended): for every state whose game has not ended and whose round is
not finished, an action by a non-turn player is rejected with `NotYourTurn`
and the state is left unchanged. -/
theorem c5_turn_exclusivity (g : GameState) (a : Action) (d : List Card)
    (h0 : g.isGameEnded = false) (h1 : g.isRoundFinished = false)
    (h2 : a.playerID ≠ g.turnPlayerID) :
    runAction g (some a) d = (some GameErr.notYourTurn, g) := by
  simp only [runAction]
  rw [if_neg (by simp [h0]), if_pos ⟨h1, h2⟩]

theorem c5_turn_exclusivity_witness :
    runAction (newGame 100 fullDeckList) (some (Action.knock 0)) [] =
      (some GameErr.notYourTurn, newGame 100 fullDeckList) :=
  c5_turn_exclusivity _ _ _ (by decide) (by decide) (by decide)

/-- C6: the knock legality predicate holds exactly when the actor is the turn
player, has drawn and discarded this turn, the round is not finished, and the
actor's unmelded deadwood is at most 10; consequently every successful
`RunAction` application of a knock happens with the knocker's deadwood ≤ 10. -/
theorem c6_knock_legality (g : GameState) (pid : Int) :
    (isPossible (Action.knock pid) g = true ↔
      (g.turnPlayerID = pid ∧ g.hasDrawnThisTurn = true ∧ g.hasDiscardedThisTurn = true ∧
        g.isRoundFinished = false ∧
        calculateDeadwoodPoints (g.getPlayer pid).hand.revealed (g.getPlayer pid).melds ≤ 10)) ∧
    (∀ d : List Card, (runAction g (some (Action.knock pid)) d).1 = none →
      calculateDeadwoodPoints (g.getPlayer pid).hand.revealed (g.getPlayer pid).melds ≤ 10) := by
  constructor
  · simp [isPossible, and_assoc, Bool.not_eq_true']
  · intro d h
    have hp := runAction_success_isPossible g (Action.knock pid) d h
    simp [isPossible, Bool.not_eq_true'] at hp
    exact hp.2

theorem c6_knock_legality_witness :
    (runAction stateC1 (some (Action.knock 0)) []).1 = none ∧
    calculateDeadwoodPoints (stateC1.getPlayer 0).hand.revealed
      (stateC1.getPlayer 0).melds ≤ 10 :=
  ⟨by decide, (c6_knock_legality stateC1 0).2 [] (by decide)⟩

/-- C9: the action codec round-trips every action built by the six
constructors — deserializing its serialization succeeds and returns the same
action (same variant, name tag, player id, and variant fields) — and
deserializing any record whose name tag is not one of the six known action
names fails with the unknown-action error. -/
theorem c9_codec_roundtrip_and_unknown :
    (∀ a : Action, deserializeAction (serializeAction a) = Except.ok a) ∧
    (∀ s : SerializedAction, s.name ∉ knownActionNames →
      deserializeAction s = Except.error DeserializeError.unknownAction) := by
  constructor
  · intro a
    cases a <;> rfl
  · intro s h
    simp only [knownActionNames, List.mem_cons, List.not_mem_nil, or_false, not_or] at h
    obtain ⟨n1, n2, n3, n4, n5, n6⟩ := h
    simp [deserializeAction, n1, n2, n3, n4, n5, n6]

theorem c9_codec_roundtrip_and_unknown_witness :
    deserializeAction ⟨"banana", 0, none, none, none⟩ =
      Except.error DeserializeError.unknownAction ∧
    deserializeAction (serializeAction (Action.knock 3)) = Except.ok (Action.knock 3) :=
  ⟨c9_codec_roundtrip_and_unknown.2 ⟨"banana", 0, none, none, none⟩ (by decide),
    c9_codec_roundtrip_and_unknown.1 (Action.knock 3)⟩

/-- C10: running a nil action returns no error and leaves the state entirely
unchanged — no rejection, no log entry, no recomputation of the stored
possible-action set. -/
theorem c10_nil_action_noop (g : GameState) (d : List Card) :
    runAction g none d = (none, g) := rfl

/-! ### Permutation and duplicate-freeness toolkit -/

theorem innerPass_perm (x : Card) (t : List Card) :
    ((innerPass x t).1 :: (innerPass x t).2).Perm (x :: t) := by
  induction t generalizing x with
  | nil => simp [innerPass]
  | cons y t ih =>
    simp only [innerPass]
    split
    · exact (List.Perm.swap x (innerPass y t).1 (innerPass y t).2).trans ((ih y).cons x)
    · exact ((List.Perm.swap y (innerPass x t).1 (innerPass x t).2).trans
        ((ih x).cons y)).trans (List.Perm.swap x y t)

theorem selSort_perm_aux : ∀ (n : Nat) (l : List Card), l.length ≤ n → (selSort l).Perm l := by
  intro n
  induction n with
  | zero =>
    intro l hl
    cases l with
    | nil => simp [selSort]
    | cons x t => simp at hl
  | succ n ih =>
    intro l hl
    cases l with
    | nil => simp [selSort]
    | cons x t =>
      rw [selSort]
      have h2 : (innerPass x t).2.length ≤ n := by
        rw [innerPass_snd_length]
        simpa using hl
      exact ((ih _ h2).cons _).trans (innerPass_perm x t)

theorem selSort_perm (l : List Card) : (selSort l).Perm l :=
  selSort_perm_aux l.length l le_rfl

theorem consecCheckB_chain :
    ∀ l : List Card, consecCheckB l = true →
      l.Chain' (fun u v => v.number = u.number + 1) := by
  intro l
  induction l with
  | nil => intro; simp
  | cons x t ih =>
    intro h
    cases t with
    | nil => simp
    | cons y t2 =>
      simp only [consecCheckB, Bool.and_eq_true, decide_eq_true_eq] at h
      exact List.chain'_cons.mpr ⟨h.1, ih h.2⟩

theorem chain_succ_pairwise_lt :
    ∀ l : List Card, l.Chain' (fun u v => v.number = u.number + 1) →
      l.Pairwise (fun u v => u.number < v.number) := by
  intro l
  induction l with
  | nil => intro; simp
  | cons x t ih =>
    intro h
    rcases List.chain'_cons'.mp h with ⟨hhead, htail⟩
    have hp := ih htail
    refine List.pairwise_cons.mpr ⟨?_, hp⟩
    intro z hz
    cases t with
    | nil => simp at hz
    | cons y t2 =>
      have hxy : y.number = x.number + 1 := hhead y rfl
      rcases List.mem_cons.mp hz with rfl | hz2
      · omega
      · have hyz := (List.pairwise_cons.mp hp).1 z hz2
        omega

theorem pairwise_lt_nodup (l : List Card)
    (h : l.Pairwise (fun u v => u.number < v.number)) : l.Nodup := by
  refine h.imp ?_
  intro a b hlt heq
  rw [heq] at hlt
  exact lt_irrefl _ hlt

theorem suitsNodupLoop_not_seen :
    ∀ (l : List Card) (seen : List String), suitsNodupLoop seen l = true →
      ∀ c ∈ l, ¬ seen.contains c.suit = true := by
  intro l
  induction l with
  | nil => intro seen _ c hc; cases hc
  | cons x t ih =>
    intro seen h c hc
    simp only [suitsNodupLoop] at h
    split at h
    · cases h
    · rcases List.mem_cons.mp hc with rfl | hc2
      · assumption
      · have h2 := ih (x.suit :: seen) h c hc2
        intro hcontra
        apply h2
        simp only [List.contains_cons, Bool.or_eq_true]
        exact Or.inr hcontra

theorem suitsNodupLoop_nodup :
    ∀ (l : List Card) (seen : List String), suitsNodupLoop seen l = true →
      (l.map (fun c => c.suit)).Nodup := by
  intro l
  induction l with
  | nil => intro; simp
  | cons x t ih =>
    intro seen h
    simp only [suitsNodupLoop] at h
    split at h
    · cases h
    · refine List.nodup_cons.mpr ⟨?_, ih _ h⟩
      intro hmem
      rcases List.mem_map.mp hmem with ⟨c, hc, hsuit⟩
      have := suitsNodupLoop_not_seen t (x.suit :: seen) h c hc
      simp [hsuit] at this

theorem meldIsValidSet_nodup (cards : List Card) (h : meldIsValidSet cards = true) :
    cards.Nodup := by
  simp only [meldIsValidSet] at h
  split at h
  · cases h
  · simp only [Bool.and_eq_true] at h
    exact (suitsNodupLoop_nodup cards [] h.2).of_map _

theorem meldIsValidRun_nodup (cards : List Card) (h : meldIsValidRun cards = true) :
    cards.Nodup := by
  simp only [meldIsValidRun] at h
  split at h
  · cases h
  · simp only [Bool.and_eq_true] at h
    have hchain := consecCheckB_chain _ h.2
    have hnd := pairwise_lt_nodup _ (chain_succ_pairwise_lt _ hchain)
    exact ((selSort_perm cards).nodup_iff).mp hnd

theorem meldIsValidMeld_nodup (cards : List Card) (mt : MeldType)
    (h : meldIsValidMeld cards mt = true) : cards.Nodup := by
  simp only [meldIsValidMeld] at h
  split at h
  · cases h
  · split at h
    · exact meldIsValidSet_nodup cards h
    · split at h
      · exact meldIsValidRun_nodup cards h
      · cases h

theorem nodup_filter_ne_perm (l : List Card) (c : Card) (hnd : l.Nodup) (hc : c ∈ l) :
    l.Perm (c :: l.filter (fun x => x ≠ c)) := by
  induction l with
  | nil => cases hc
  | cons x t ih =>
    rcases List.mem_cons.mp hc with rfl | hct
    · have hcnot : c ∉ t := (List.nodup_cons.mp hnd).1
      have hfilter : t.filter (fun x => !decide (x = c)) = t := by
        refine List.filter_eq_self.mpr ?_
        intro a ha
        simp only [Bool.not_eq_eq_eq_not, Bool.not_true, decide_eq_false_iff_not]
        rintro rfl
        exact hcnot ha
      simp [List.filter_cons, hfilter]
    · have hnd2 := (List.nodup_cons.mp hnd).2
      have hxc : x ≠ c := by
        rintro rfl
        exact (List.nodup_cons.mp hnd).1 hct
      have hstep := (ih hnd2 hct).cons x
      have hgoal := hstep.trans (List.Perm.swap c x (t.filter (fun y => decide (y ≠ c))))
      simpa [List.filter_cons, hxc] using hgoal

theorem hand_filter_contains_perm (hand cards : List Card) (hh : hand.Nodup)
    (hc : cards.Nodup) (hsub : ∀ c ∈ cards, c ∈ hand) :
    (hand.filter (fun x => cards.contains x)).Perm cards := by
  rw [List.perm_ext_iff_of_nodup (hh.filter _) hc]
  intro a
  simp only [List.mem_filter, List.elem_eq_mem, decide_eq_true_eq]
  constructor
  · rintro ⟨_, h2⟩; exact h2
  · intro h2; exact ⟨hsub a h2, h2⟩

theorem hand_meld_partition_perm (hand cards : List Card) (hh : hand.Nodup)
    (hc : cards.Nodup) (hsub : ∀ c ∈ cards, c ∈ hand) :
    hand.Perm (hand.filter (fun x => !(cards.contains x)) ++ cards) := by
  have h1 := hand_filter_contains_perm hand cards hh hc hsub
  have h2 := List.filter_append_perm (fun x => cards.contains x) hand
  have h3 : hand.Perm
      (hand.filter (fun x => cards.contains x) ++ hand.filter (fun x => !(cards.contains x))) :=
    h2.symm
  exact (h3.trans List.perm_append_comm).trans (List.Perm.append_left _ h1)

/-! ### Card conservation -/

theorem fullDeckList_nodup : fullDeckList.Nodup := by decide

theorem fullDeckList_length : fullDeckList.length = 40 := by decide

theorem getLast?_decomp {l : List Card} {c : Card} (h : l.getLast? = some c) :
    l = l.dropLast ++ [c] := by
  have hne : l ≠ [] := by rintro rfl; simp at h
  have h2 := List.getLast?_eq_getLast l hne
  rw [h2] at h
  have hc := Option.some.inj h
  rw [← hc]
  exact (List.dropLast_append_getLast hne).symm

theorem allCards_setCurrentRoundLog (g : GameState) (rl : RoundLog) :
    allCards (g.setCurrentRoundLog rl) = allCards g := rfl

theorem allCards_update_possible (g : GameState) (pa : List SerializedAction) :
    allCards {g with possibleActions := pa} = allCards g := rfl

theorem allCards_update_isRoundFinished (g : GameState) (b : Bool) :
    allCards {g with isRoundFinished := b} = allCards g := rfl

theorem allCards_update_knockedPlayerID (g : GameState) (pid : Int) :
    allCards {g with knockedPlayerID := pid} = allCards g := rfl

theorem allCards_update_confirmed (g : GameState) (l : List Int) :
    allCards {g with roundFinishedConfirmedPlayerIDs := l} = allCards g := rfl

theorem allCards_update_turn4 (g : GameState) (t o : Int) :
    allCards {g with turnPlayerID := t, turnOpponentPlayerID := o, hasDrawnThisTurn := false, hasDiscardedThisTurn := false} = allCards g := rfl

theorem allCards_changeTurn (g : GameState) : allCards (changeTurn g) = allCards g := rfl

theorem allCards_setPlayer_score (g : GameState) (pid : Int) (s : Int) :
    allCards (g.setPlayer pid {g.getPlayer pid with score := s}) = allCards g := by
  by_cases hpid : pid = 0 <;>
    simp [GameState.setPlayer, GameState.getPlayer, hpid, allCards]

theorem allCards_calculateRoundScore (g : GameState) :
    allCards (calculateRoundScore g) = allCards g := by
  simp only [calculateRoundScore]
  rw [allCards_setPlayer_score, allCards_setCurrentRoundLog]

theorem allCards_endGameCheckOne (g : GameState) (pid : Int) :
    allCards (endGameCheckOne g pid) = allCards g := by
  simp only [endGameCheckOne]
  split
  · exact allCards_setPlayer_score g pid g.ruleMaxPoints
  · rfl

theorem allCards_endGameCheck (g : GameState) :
    allCards (endGameCheck g) = allCards g := by
  rw [endGameCheck, allCards_endGameCheckOne, allCards_endGameCheckOne]

theorem allCards_nodup_hand (g : GameState) (h : (allCards g).Nodup) (pid : Int) :
    (g.getPlayer pid).hand.revealed.Nodup := by
  simp only [allCards] at h
  by_cases hpid : pid = 0
  · subst hpid
    simp only [GameState.getPlayer, ite_true, if_pos]
    exact h.of_append_left.of_append_left.of_append_left.of_append_right
  · simp only [GameState.getPlayer, if_neg hpid]
    exact h.of_append_left.of_append_right

theorem dealLoop_perm :
    ∀ (n : Nat) (d : List Card), 2 * n ≤ d.length →
      ((dealLoop n d).1 ++ (dealLoop n d).2.1 ++ (dealLoop n d).2.2).Perm d := by
  intro n
  induction n with
  | zero => intro d _; simp [dealLoop]
  | succ n ih =>
    intro d hd
    cases d with
    | nil => simp only [List.length_nil] at hd; omega
    | cons c0 d1 =>
      cases d1 with
      | nil => simp only [List.length_cons, List.length_nil] at hd; omega
      | cons c1 rest =>
        have hrest : 2 * n ≤ rest.length := by
          simp only [List.length_cons] at hd; omega
        have ihr := ih rest hrest
        simp only [dealLoop, List.cons_append, List.append_assoc]
        refine List.Perm.cons c0 ?_
        refine List.perm_middle.trans (List.Perm.cons c1 ?_)
        simpa [List.append_assoc] using ihr

theorem allCards_startNewRound (deckOrder : List Card) (g : GameState)
    (hlen : 14 ≤ deckOrder.length) :
    (allCards (startNewRound deckOrder g)).Perm deckOrder := by
  have hperm := dealLoop_perm 7 deckOrder (by omega)
  have hperm2 := Multiset.coe_eq_coe.mpr hperm
  simp only [← Multiset.coe_add] at hperm2
  simp only [startNewRound]
  rw [← Multiset.coe_eq_coe]
  rcases hr : (dealLoop 7 deckOrder).2.2.getLast? with _ | c
  · have hrest : (dealLoop 7 deckOrder).2.2 = [] := List.getLast?_eq_none_iff.mp hr
    simp only [hr]
    simp only [allCards, meldsCards, List.flatMap_nil, List.append_nil]
    simp only [← Multiset.coe_add]
    rw [← hperm2, hrest]
    simp only [Multiset.coe_nil]
    abel
  · have hsplit := getLast?_decomp hr
    have hrm : ((dealLoop 7 deckOrder).2.2 : Multiset Card) =
        ↑(dealLoop 7 deckOrder).2.2.dropLast + {c} := by
      conv_lhs => rw [hsplit]
      simp [← Multiset.coe_add]
    simp only [hr]
    simp only [allCards, meldsCards, List.flatMap_nil, List.append_nil]
    simp only [← Multiset.coe_add, Multiset.coe_singleton]
    rw [← hperm2, hrm]
    abel

theorem allCards_runEffect (a : Action) (g g1 : GameState)
    (hnd : (allCards g).Nodup) (h : runEffect a g = (none, g1)) :
    (allCards g1 : Multiset Card) = (allCards g : Multiset Card) := by
  cases a with
  | drawFromDrawPile pid =>
    simp only [runEffect] at h
    split at h
    · simp at h
    · rcases hl : g.drawPile.cards.getLast? with _ | c
      · rw [hl] at h
        injection h with h1 h2
        rw [← h2]
      · rw [hl] at h
        injection h with h1 h2
        rw [← h2]
        have hdp : (g.drawPile.cards : Multiset Card) =
            ↑g.drawPile.cards.dropLast + {c} := by
          conv_lhs => rw [getLast?_decomp hl]
          simp [← Multiset.coe_add]
        by_cases hpid : pid = 0
        · subst hpid
          simp only [GameState.setPlayer, GameState.getPlayer, ite_true, allCards]
          simp only [← Multiset.coe_add, Multiset.coe_singleton]
          rw [hdp]
          abel
        · simp only [GameState.setPlayer, GameState.getPlayer, if_neg hpid, allCards]
          simp only [← Multiset.coe_add, Multiset.coe_singleton]
          rw [hdp]
          abel
  | drawFromDiscardPile pid =>
    simp only [runEffect] at h
    split at h
    · simp at h
    · rcases hl : g.discardPile.cards.getLast? with _ | c
      · rw [hl] at h
        injection h with h1 h2
        rw [← h2]
      · rw [hl] at h
        injection h with h1 h2
        rw [← h2]
        have hdp : (g.discardPile.cards : Multiset Card) =
            ↑g.discardPile.cards.dropLast + {c} := by
          conv_lhs => rw [getLast?_decomp hl]
          simp [← Multiset.coe_add]
        by_cases hpid : pid = 0
        · subst hpid
          simp only [GameState.setPlayer, GameState.getPlayer, ite_true, allCards]
          simp only [← Multiset.coe_add, Multiset.coe_singleton]
          rw [hdp]
          abel
        · simp only [GameState.setPlayer, GameState.getPlayer, if_neg hpid, allCards]
          simp only [← Multiset.coe_add, Multiset.coe_singleton]
          rw [hdp]
          abel
  | discardCard c pid =>
    simp only [runEffect] at h
    split at h
    · simp at h
    · rename_i hposs
      have htrue : isPossible (Action.discardCard c pid) g = true := by
        simpa using hposs
      simp only [isPossible, Bool.and_eq_true, decide_eq_true_eq, List.elem_eq_mem] at htrue
      have hmem : c ∈ (g.getPlayer pid).hand.revealed := htrue.2
      have hhand := allCards_nodup_hand g hnd pid
      have hp := nodup_filter_ne_perm _ c hhand hmem
      have hpm : ((g.getPlayer pid).hand.revealed : Multiset Card) =
          {c} + ↑((g.getPlayer pid).hand.revealed.filter (fun x => decide (x ≠ c))) := by
        have h3 := Multiset.coe_eq_coe.mpr hp
        simpa [← Multiset.singleton_add, ← Multiset.cons_coe] using h3
      injection h with h1 h2
      rw [← h2]
      by_cases hpid : pid = 0
      · subst hpid
        simp only [GameState.setPlayer, GameState.getPlayer, ite_true, allCards] at hpm ⊢
        simp only [← Multiset.coe_add, Multiset.coe_singleton]
        rw [hpm]
        abel
      · simp only [GameState.setPlayer, GameState.getPlayer, if_neg hpid, allCards] at hpm ⊢
        simp only [← Multiset.coe_add, Multiset.coe_singleton]
        rw [hpm]
        abel
  | meldCards cards mt pid =>
    simp only [runEffect] at h
    split at h
    · simp at h
    · rename_i hposs
      have htrue : isPossible (Action.meldCards cards mt pid) g = true := by
        simpa using hposs
      simp only [isPossible, Bool.and_eq_true, decide_eq_true_eq, List.all_eq_true,
        List.elem_eq_mem] at htrue
      have hsub : ∀ x ∈ cards, x ∈ (g.getPlayer pid).hand.revealed := htrue.1.2
      have hvalid : meldIsValidMeld cards mt = true := htrue.2
      have hcards := meldIsValidMeld_nodup cards mt hvalid
      have hhand := allCards_nodup_hand g hnd pid
      have hp := hand_meld_partition_perm _ cards hhand hcards hsub
      have hpm : ((g.getPlayer pid).hand.revealed : Multiset Card) =
          ↑((g.getPlayer pid).hand.revealed.filter (fun x => !(cards.contains x))) +
            ↑cards := by
        have h3 := Multiset.coe_eq_coe.mpr hp
        simpa [← Multiset.coe_add] using h3
      injection h with h1 h2
      rw [← h2]
      by_cases hpid : pid = 0
      · subst hpid
        simp only [GameState.setPlayer, GameState.getPlayer, ite_true, allCards,
          meldsCards, List.flatMap_append, List.flatMap_cons, List.flatMap_nil,
          List.append_nil] at hpm ⊢
        simp only [← Multiset.coe_add, Multiset.coe_singleton] at hpm ⊢
        rw [hpm]
        abel
      · simp only [GameState.setPlayer, GameState.getPlayer, if_neg hpid, allCards,
          meldsCards, List.flatMap_append, List.flatMap_cons, List.flatMap_nil,
          List.append_nil] at hpm ⊢
        simp only [← Multiset.coe_add, Multiset.coe_singleton] at hpm ⊢
        rw [hpm]
        abel
  | knock pid =>
    simp only [runEffect] at h
    split at h
    · simp at h
    · injection h with h1 h2
      rw [← h2]
      refine congrArg _ ?_
      rw [allCards_update_isRoundFinished, allCards_setCurrentRoundLog,
        allCards_calculateRoundScore, allCards_update_knockedPlayerID]
  | confirmRoundFinished pid =>
    simp only [runEffect] at h
    split at h
    · simp at h
    · injection h with h1 h2
      rw [← h2]
      exact congrArg _ (allCards_update_confirmed g _)

theorem runAction_success_decomp (g : GameState) (a : Action) (d : List Card)
    (g' : GameState) (h : runAction g (some a) d = (none, g')) :
    g.isGameEnded = false ∧ isPossible a g = true ∧
      ∃ g1, runEffect a g = (none, g1) ∧ g' = postProcess a d g1 := by
  simp only [runAction] at h
  by_cases h1 : g.isGameEnded = true
  · rw [if_pos h1] at h; simp at h
  · rw [if_neg h1] at h
    by_cases h2 : g.isRoundFinished = false ∧ a.playerID ≠ g.turnPlayerID
    · rw [if_pos h2] at h; simp at h
    · rw [if_neg h2] at h
      by_cases h3 : isPossible a g = false
      · rw [if_pos h3] at h; simp at h
      · rw [if_neg h3] at h
        rcases hre : runEffect a g with ⟨e?, g1⟩
        simp only [hre] at h
        cases e? with
        | some e2 => simp at h
        | none =>
          injection h with h4 h5
          exact ⟨by simpa using h1, by simpa using h3, g1, rfl, h5.symm⟩

theorem allCards_postProcess (a : Action) (d : List Card) (g1 : GameState)
    (hd : d.Perm fullDeckList)
    (h : (allCards g1 : Multiset Card) = (fullDeckList : Multiset Card)) :
    (allCards (postProcess a d g1) : Multiset Card) = (fullDeckList : Multiset Card) := by
  have h14 : 14 ≤ d.length := by rw [hd.length_eq, fullDeckList_length]; omega
  have hlog : allCards (postProcessLog a g1) = allCards g1 := by
    simp only [postProcessLog]
    split
    · exact allCards_setCurrentRoundLog g1 _
    · rfl
  have htail : ∀ g2 : GameState, allCards (postProcessTail a g2) = allCards g2 := by
    intro g2
    simp only [postProcessTail]
    repeat' split
    all_goals
      simp only [allCards_update_possible, allCards_changeTurn, allCards_endGameCheck,
        allCards_update_turn4]
  simp only [postProcess]
  split
  · exact Multiset.coe_eq_coe.mpr ((allCards_startNewRound d _ h14).trans hd)
  · rw [htail, hlog]
    exact h

theorem reachable_allCards (g : GameState) (h : Reachable g) :
    (allCards g : Multiset Card) = (fullDeckList : Multiset Card) := by
  induction h with
  | base maxPoints deckOrder hperm =>
    have h14 : 14 ≤ deckOrder.length := by
      rw [hperm.length_eq, fullDeckList_length]; omega
    exact Multiset.coe_eq_coe.mpr ((allCards_startNewRound deckOrder _ h14).trans hperm)
  | step g g1 a deckOrder hperm hg hrun ih =>
    obtain ⟨hend, hip, gm, hre, hpost⟩ := runAction_success_decomp g a deckOrder g1 hrun
    have hnd : (allCards g).Nodup :=
      ((Multiset.coe_eq_coe.mp ih).nodup_iff).mpr fullDeckList_nodup
    have hmid := allCards_runEffect a g gm hnd hre
    rw [hpost]
    exact allCards_postProcess a deckOrder gm hperm (hmid.trans ih)

/-- C3: card conservation — in every state reachable from a fresh game by
successful `RunAction` calls, the draw pile, the discard pile, both players'
hands and both players' melds together hold exactly 40 cards (in fact they
hold exactly the 40-card deck, which is what the induction carries). -/
theorem c3_card_conservation (g : GameState) (h : Reachable g) : cardCount g = 40 := by
  have hm := reachable_allCards g h
  have hp : (allCards g).Perm fullDeckList := Multiset.coe_eq_coe.mp hm
  have hlen := hp.length_eq
  rw [cardCount, hlen, fullDeckList_length]

theorem c3_card_conservation_witness : cardCount (newGame 100 fullDeckList) = 40 :=
  c3_card_conservation _ (Reachable.base 100 fullDeckList (List.Perm.refl _))

/-! ### Score bookkeeping -/

/-- The fields of a state that the scoring and end-of-game logic reads and
writes: both scores, the point limit, the game-ended flag, the round-finished
flag, the confirmed set and the game winner. -/
def scoreView (g : GameState) :
    Int × Int × Int × Bool × Bool × List Int × Int :=
  (g.player0.score, g.player1.score, g.ruleMaxPoints, g.isGameEnded,
    g.isRoundFinished, g.roundFinishedConfirmedPlayerIDs, g.winnerPlayerID)

theorem postProcessLog_view (a : Action) (g1 : GameState) :
    scoreView (postProcessLog a g1) = scoreView g1 := by
  simp only [postProcessLog]
  split <;> rfl

theorem scoreView_update_pa (g : GameState) (pa : List SerializedAction) :
    scoreView {g with possibleActions := pa} = scoreView g := rfl

theorem scoreView_changeTurn (g : GameState) : scoreView (changeTurn g) = scoreView g := rfl

theorem scoreView_update_turn4 (g : GameState) (t o : Int) :
    scoreView {g with turnPlayerID := t, turnOpponentPlayerID := o, hasDrawnThisTurn := false, hasDiscardedThisTurn := false} = scoreView g := rfl

theorem endGameCheckOne_view_congr (pid : Int) {g g' : GameState}
    (h : scoreView g = scoreView g') :
    scoreView (endGameCheckOne g pid) = scoreView (endGameCheckOne g' pid) := by
  simp only [scoreView, Prod.mk.injEq] at h
  obtain ⟨h1, h2, h3, h4, h5, h6, h7⟩ := h
  by_cases hpid : pid = 0 <;>
    simp [endGameCheckOne, GameState.getPlayer, GameState.setPlayer, scoreView,
      hpid, h1, h2, h3, h4, h5, h6, h7] <;>
    repeat' split <;> simp_all

theorem endGameCheck_view_congr {g g' : GameState} (h : scoreView g = scoreView g') :
    scoreView (endGameCheck g) = scoreView (endGameCheck g') := by
  simp only [endGameCheck]
  exact endGameCheckOne_view_congr 1 (endGameCheckOne_view_congr 0 h)

theorem postProcessTail_view (a : Action) (g2 : GameState) :
    scoreView (postProcessTail a g2) = scoreView (endGameCheck g2) := by
  simp only [postProcessTail]
  repeat' split
  all_goals
    simp only [scoreView_update_pa, scoreView_changeTurn]
  all_goals
    exact endGameCheck_view_congr (by simp only [scoreView_update_turn4, scoreView_changeTurn])

theorem startNewRound_view (d : List Card) (g : GameState) :
    (startNewRound d g).player0.score = g.player0.score ∧
    (startNewRound d g).player1.score = g.player1.score ∧
    (startNewRound d g).ruleMaxPoints = g.ruleMaxPoints ∧
    (startNewRound d g).isGameEnded = g.isGameEnded ∧
    (startNewRound d g).isRoundFinished = false ∧
    (startNewRound d g).roundFinishedConfirmedPlayerIDs = [] ∧
    (startNewRound d g).winnerPlayerID = g.winnerPlayerID :=
  ⟨rfl, rfl, rfl, rfl, rfl, rfl, rfl⟩

theorem calculateRoundScore_spec (g : GameState) :
    (calculateRoundScore g).ruleMaxPoints = g.ruleMaxPoints ∧
    (calculateRoundScore g).isGameEnded = g.isGameEnded ∧
    (calculateRoundScore g).winnerPlayerID = g.winnerPlayerID ∧
    (calculateRoundScore g).isRoundFinished = g.isRoundFinished ∧
    (calculateRoundScore g).roundFinishedConfirmedPlayerIDs =
      g.roundFinishedConfirmedPlayerIDs ∧
    g.player0.score ≤ (calculateRoundScore g).player0.score ∧
    g.player1.score ≤ (calculateRoundScore g).player1.score ∧
    ((calculateRoundScore g).player0.score = g.player0.score ∨
      (calculateRoundScore g).player1.score = g.player1.score) := by
  simp only [calculateRoundScore, GameState.setCurrentRoundLog, GameState.setPlayer,
    GameState.getPlayer]
  repeat' split
  all_goals refine ⟨rfl, rfl, rfl, rfl, rfl, ?_, ?_, ?_⟩
  all_goals simp_all
  all_goals omega

theorem endGameCheck_spec (g : GameState) :
    (endGameCheck g).ruleMaxPoints = g.ruleMaxPoints ∧
    (endGameCheck g).isRoundFinished = g.isRoundFinished ∧
    (endGameCheck g).roundFinishedConfirmedPlayerIDs =
      g.roundFinishedConfirmedPlayerIDs ∧
    ((endGameCheck g).isGameEnded = true ↔
      (g.isGameEnded = true ∨ g.ruleMaxPoints ≤ g.player0.score ∨
        g.ruleMaxPoints ≤ g.player1.score)) ∧
    (endGameCheck g).player0.score =
      (if g.ruleMaxPoints ≤ g.player0.score then g.ruleMaxPoints else g.player0.score) ∧
    (endGameCheck g).player1.score =
      (if g.ruleMaxPoints ≤ g.player1.score then g.ruleMaxPoints else g.player1.score) ∧
    (g.ruleMaxPoints ≤ g.player0.score → ¬ g.ruleMaxPoints ≤ g.player1.score →
      (endGameCheck g).winnerPlayerID = 0) ∧
    (g.ruleMaxPoints ≤ g.player1.score → (endGameCheck g).winnerPlayerID = 1) := by
  by_cases h0 : g.ruleMaxPoints ≤ g.player0.score <;>
    by_cases h1 : g.ruleMaxPoints ≤ g.player1.score <;>
    simp [endGameCheck, endGameCheckOne, GameState.getPlayer, GameState.setPlayer, h0, h1]

theorem runEffect_view (a : Action) (g g1 : GameState) (h : runEffect a g = (none, g1)) :
    g1.ruleMaxPoints = g.ruleMaxPoints ∧
    g1.isGameEnded = g.isGameEnded ∧
    g.player0.score ≤ g1.player0.score ∧
    g.player1.score ≤ g1.player1.score ∧
    (g1.player0.score = g.player0.score ∨ g1.player1.score = g.player1.score) ∧
    ((g1.player0.score = g.player0.score ∧ g1.player1.score = g.player1.score) ∨
      (g1.roundFinishedConfirmedPlayerIDs = g.roundFinishedConfirmedPlayerIDs ∧
        g.isRoundFinished = false)) ∧
    (g1.isRoundFinished = false →
      (g1.roundFinishedConfirmedPlayerIDs = g.roundFinishedConfirmedPlayerIDs ∧
        g.isRoundFinished = false)) := by
  cases a with
  | drawFromDrawPile pid =>
    simp only [runEffect] at h
    split at h
    · simp at h
    · rename_i hposs
      have htrue : isPossible (Action.drawFromDrawPile pid) g = true := by simpa using hposs
      simp only [isPossible, Bool.and_eq_true, decide_eq_true_eq,
        Bool.not_eq_true'] at htrue
      rcases hl : g.drawPile.cards.getLast? with _ | c <;> rw [hl] at h <;>
        injection h with h1 h2 <;> rw [← h2]
      · exact ⟨rfl, rfl, le_refl _, le_refl _, Or.inl rfl, Or.inl ⟨rfl, rfl⟩,
          fun h' => ⟨rfl, h'⟩⟩
      · by_cases hpid : pid = 0
        · subst hpid
          simp [GameState.setPlayer, GameState.getPlayer]
        · simp [GameState.setPlayer, GameState.getPlayer, if_neg hpid]
  | drawFromDiscardPile pid =>
    simp only [runEffect] at h
    split at h
    · simp at h
    · rcases hl : g.discardPile.cards.getLast? with _ | c <;> rw [hl] at h <;>
        injection h with h1 h2 <;> rw [← h2]
      · exact ⟨rfl, rfl, le_refl _, le_refl _, Or.inl rfl, Or.inl ⟨rfl, rfl⟩,
          fun h' => ⟨rfl, h'⟩⟩
      · by_cases hpid : pid = 0
        · subst hpid
          simp [GameState.setPlayer, GameState.getPlayer]
        · simp [GameState.setPlayer, GameState.getPlayer, if_neg hpid]
  | discardCard c pid =>
    simp only [runEffect] at h
    split at h
    · simp at h
    · injection h with h1 h2
      rw [← h2]
      by_cases hpid : pid = 0
      · subst hpid
        simp [GameState.setPlayer, GameState.getPlayer]
      · simp [GameState.setPlayer, GameState.getPlayer, if_neg hpid]
  | meldCards cards mt pid =>
    simp only [runEffect] at h
    split at h
    · simp at h
    · injection h with h1 h2
      rw [← h2]
      by_cases hpid : pid = 0
      · subst hpid
        simp [GameState.setPlayer, GameState.getPlayer]
      · simp [GameState.setPlayer, GameState.getPlayer, if_neg hpid]
  | knock pid =>
    simp only [runEffect] at h
    split at h
    · simp at h
    · rename_i hposs
      have htrue : isPossible (Action.knock pid) g = true := by simpa using hposs
      simp only [isPossible, Bool.and_eq_true, decide_eq_true_eq,
        Bool.not_eq_true'] at htrue
      have hfin : g.isRoundFinished = false := htrue.1.2
      injection h with h1 h2
      rw [← h2]
      have hs := calculateRoundScore_spec {g with knockedPlayerID := pid}
      exact ⟨hs.1, hs.2.1, hs.2.2.2.2.2.1, hs.2.2.2.2.2.2.1, hs.2.2.2.2.2.2.2,
        Or.inr ⟨hs.2.2.2.2.1, hfin⟩, fun h' => absurd h' (by simp)⟩
  | confirmRoundFinished pid =>
    simp only [runEffect] at h
    split at h
    · simp at h
    · rename_i hposs
      have htrue : isPossible (Action.confirmRoundFinished pid) g = true := by
        simpa using hposs
      have hfin : g.isRoundFinished = true := htrue
      injection h with h1 h2
      rw [← h2]
      refine ⟨rfl, rfl, le_refl _, le_refl _, Or.inl rfl, Or.inl ⟨rfl, rfl⟩, ?_⟩
      intro h'
      simp [hfin] at h'

theorem runAction_success_basic (g : GameState) (a : Action) (d : List Card)
    (post : GameState)
    (hconf : g.isRoundFinished = false → g.roundFinishedConfirmedPlayerIDs = [])
    (hrun : runAction g (some a) d = (none, post)) :
    post.ruleMaxPoints = g.ruleMaxPoints ∧
    (post.isRoundFinished = false → post.roundFinishedConfirmedPlayerIDs = []) := by
  obtain ⟨hend, hip, g1, hre, hpost⟩ := runAction_success_decomp g a d post hrun
  obtain ⟨hv1, hv2, hv3, hv4, hv5, hv6, hv7⟩ := runEffect_view a g g1 hre
  have hlog := postProcessLog_view a g1
  simp only [scoreView, Prod.mk.injEq] at hlog
  obtain ⟨hl1, hl2, hl3, hl4, hl5, hl6, hl7⟩ := hlog
  subst hpost
  simp only [postProcess]
  split
  · obtain ⟨hs0, hs1, hsM, hsE, hsF, hsC, hsW⟩ := startNewRound_view d (postProcessLog a g1)
    exact ⟨hsM.trans (hl3.trans hv1), fun _ => hsC⟩
  · have ht := postProcessTail_view a (postProcessLog a g1)
    simp only [scoreView, Prod.mk.injEq] at ht
    obtain ⟨ht0, ht1, htM, htE, htF, htC, htW⟩ := ht
    obtain ⟨heM, heF, heC, heE, he0, he1, heW0, heW1⟩ :=
      endGameCheck_spec (postProcessLog a g1)
    refine ⟨htM.trans (heM.trans (hl3.trans hv1)), ?_⟩
    intro hFin
    rw [htF, heF, hl5] at hFin
    obtain ⟨hceq, hgf⟩ := hv7 hFin
    rw [htC, heC, hl6, hceq, hconf hgf]

theorem runAction_score_step (g : GameState) (a : Action) (d : List Card)
    (post : GameState)
    (_hmax : 0 < g.ruleMaxPoints)
    (hinv0 : g.player0.score < g.ruleMaxPoints)
    (hinv1 : g.player1.score < g.ruleMaxPoints)
    (hconf : g.isRoundFinished = false → g.roundFinishedConfirmedPlayerIDs = [])
    (hrun : runAction g (some a) d = (none, post)) :
    g.player0.score ≤ post.player0.score ∧
    g.player1.score ≤ post.player1.score ∧
    (post.isGameEnded = true ↔
      (g.ruleMaxPoints ≤ post.player0.score ∨ g.ruleMaxPoints ≤ post.player1.score)) ∧
    (post.isGameEnded = true →
      ((post.winnerPlayerID = 0 ∧ post.player0.score = g.ruleMaxPoints ∧
          post.player1.score < g.ruleMaxPoints) ∨
        (post.winnerPlayerID = 1 ∧ post.player1.score = g.ruleMaxPoints ∧
          post.player0.score < g.ruleMaxPoints))) ∧
    (post.isGameEnded = false →
      (post.player0.score < g.ruleMaxPoints ∧ post.player1.score < g.ruleMaxPoints)) := by
  obtain ⟨hend, hip, g1, hre, hpost⟩ := runAction_success_decomp g a d post hrun
  obtain ⟨hv1, hv2, hv3, hv4, hv5, hv6, hv7⟩ := runEffect_view a g g1 hre
  have hlog := postProcessLog_view a g1
  simp only [scoreView, Prod.mk.injEq] at hlog
  obtain ⟨hl1, hl2, hl3, hl4, hl5, hl6, hl7⟩ := hlog
  subst hpost
  simp only [postProcess]
  split
  · rename_i hA
    obtain ⟨hs0, hs1, hsM, hsE, hsF, hsC, hsW⟩ := startNewRound_view d (postProcessLog a g1)
    rcases hv6 with ⟨hq0, hq1⟩ | ⟨hcf, hgf⟩
    · have e0 : (startNewRound d (postProcessLog a g1)).player0.score = g.player0.score := by
        rw [hs0, hl1, hq0]
      have e1 : (startNewRound d (postProcessLog a g1)).player1.score = g.player1.score := by
        rw [hs1, hl2, hq1]
      have eE : (startNewRound d (postProcessLog a g1)).isGameEnded = false := by
        rw [hsE, hl4, hv2, hend]
      refine ⟨le_of_eq e0.symm, le_of_eq e1.symm, ?_, ?_, ?_⟩
      · rw [eE, e0, e1]
        simp only [Bool.false_eq_true, false_iff]
        omega
      · intro hE; rw [eE] at hE; cases hE
      · intro _; rw [e0, e1]; exact ⟨hinv0, hinv1⟩
    · exfalso
      have hc : (postProcessLog a g1).roundFinishedConfirmedPlayerIDs = [] := by
        rw [hl6, hcf, hconf hgf]
      rw [hc] at hA
      simp at hA
  · have ht := postProcessTail_view a (postProcessLog a g1)
    simp only [scoreView, Prod.mk.injEq] at ht
    obtain ⟨ht0, ht1, htM, htE, htF, htC, htW⟩ := ht
    obtain ⟨heM, heF, heC, heE, he0, he1, heW0, heW1⟩ :=
      endGameCheck_spec (postProcessLog a g1)
    simp only [hl1, hl2, hl3, hl4, hv1] at heE he0 he1 heW0 heW1
    rw [hv2, hend] at heE
    have E0 := ht0.trans he0
    have E1 := ht1.trans he1
    have EE : ((postProcessTail a (postProcessLog a g1)).isGameEnded = true ↔
        (False ∨ g.ruleMaxPoints ≤ g1.player0.score ∨
          g.ruleMaxPoints ≤ g1.player1.score)) := by
      rw [htE, heE]
      simp
    by_cases hc0 : g.ruleMaxPoints ≤ g1.player0.score <;>
      by_cases hc1 : g.ruleMaxPoints ≤ g1.player1.score
    · exfalso
      rcases hv5 with hu | hu <;> omega
    · rw [if_pos hc0] at E0
      rw [if_neg hc1] at E1
      have hEnd : (postProcessTail a (postProcessLog a g1)).isGameEnded = true :=
        EE.mpr (Or.inr (Or.inl hc0))
      refine ⟨?_, ?_, ?_, ?_, ?_⟩
      · rw [E0]; omega
      · rw [E1]; exact hv4
      · rw [hEnd, E0, E1]
        simp only [true_iff]
        left
        omega
      · intro _
        left
        refine ⟨htW.trans (heW0 hc0 hc1), E0, ?_⟩
        rw [E1]; omega
      · intro hEf; rw [hEnd] at hEf; cases hEf
    · rw [if_neg hc0] at E0
      rw [if_pos hc1] at E1
      have hEnd : (postProcessTail a (postProcessLog a g1)).isGameEnded = true :=
        EE.mpr (Or.inr (Or.inr hc1))
      refine ⟨?_, ?_, ?_, ?_, ?_⟩
      · rw [E0]; exact hv3
      · rw [E1]; omega
      · rw [hEnd, E0, E1]
        simp only [true_iff]
        right
        omega
      · intro _
        right
        refine ⟨htW.trans (heW1 hc1), E1, ?_⟩
        rw [E0]; omega
      · intro hEf; rw [hEnd] at hEf; cases hEf
    · rw [if_neg hc0] at E0
      rw [if_neg hc1] at E1
      have hne : ¬ (postProcessTail a (postProcessLog a g1)).isGameEnded = true := by
        intro hh
        rcases EE.mp hh with h | h | h
        · exact h
        · exact hc0 h
        · exact hc1 h
      have hEnd : (postProcessTail a (postProcessLog a g1)).isGameEnded = false := by
        cases hB : (postProcessTail a (postProcessLog a g1)).isGameEnded
        · rfl
        · exact absurd hB hne
      refine ⟨?_, ?_, ?_, ?_, ?_⟩
      · rw [E0]; exact hv3
      · rw [E1]; exact hv4
      · rw [hEnd, E0, E1]
        simp only [Bool.false_eq_true, false_iff]
        omega
      · intro hE; rw [hEnd] at hE; cases hE
      · intro _
        rw [E0, E1]
        constructor <;> omega

theorem reachable_inv (g : GameState) (h : Reachable g) :
    (g.isRoundFinished = false → g.roundFinishedConfirmedPlayerIDs = []) ∧
    (0 < g.ruleMaxPoints → g.isGameEnded = false →
      (g.player0.score < g.ruleMaxPoints ∧ g.player1.score < g.ruleMaxPoints)) := by
  induction h with
  | base maxPoints d hperm =>
    refine ⟨fun _ => rfl, fun hmax _ => ⟨hmax, hmax⟩⟩
  | step g g1 a d hperm hg hrun ih =>
    obtain ⟨hend, hip, _, _, _⟩ := runAction_success_decomp g a d g1 hrun
    obtain ⟨hbM, hbC⟩ := runAction_success_basic g a d g1 ih.1 hrun
    refine ⟨hbC, ?_⟩
    intro hmax1 hne1
    rw [hbM] at hmax1 ⊢
    obtain ⟨hi0, hi1⟩ := ih.2 hmax1 hend
    obtain ⟨_, _, _, _, hInvB⟩ := runAction_score_step g a d g1 hmax1 hi0 hi1 ih.1 hrun
    exact hInvB hne1

/-- C8: score monotonicity and game end — across every successful `RunAction`
call from a reachable state (with a positive point limit), neither player's
score decreases; and the game ends in exactly the call in which some player's
score reaches or exceeds `RuleMaxPoints`, fixing `WinnerPlayerID` to that
player and clamping that player's score to exactly the limit. -/
theorem c8_score_monotonic_and_game_end (g : GameState) (a : Action) (d : List Card)
    (post : GameState) (hreach : Reachable g) (hmax : 0 < g.ruleMaxPoints)
    (hrun : runAction g (some a) d = (none, post)) :
    post.ruleMaxPoints = g.ruleMaxPoints ∧
    g.player0.score ≤ post.player0.score ∧
    g.player1.score ≤ post.player1.score ∧
    (post.isGameEnded = true ↔
      (g.ruleMaxPoints ≤ post.player0.score ∨ g.ruleMaxPoints ≤ post.player1.score)) ∧
    (post.isGameEnded = true →
      ((post.winnerPlayerID = 0 ∧ post.player0.score = g.ruleMaxPoints ∧
          post.player1.score < g.ruleMaxPoints) ∨
        (post.winnerPlayerID = 1 ∧ post.player1.score = g.ruleMaxPoints ∧
          post.player0.score < g.ruleMaxPoints))) := by
  obtain ⟨hend, hip, _, _, _⟩ := runAction_success_decomp g a d post hrun
  obtain ⟨hInvA, hInvB⟩ := reachable_inv g hreach
  obtain ⟨hi0, hi1⟩ := hInvB hmax hend
  obtain ⟨hbM, _⟩ := runAction_success_basic g a d post hInvA hrun
  obtain ⟨hm0, hm1, hiff, hwin, _⟩ :=
    runAction_score_step g a d post hmax hi0 hi1 hInvA hrun
  exact ⟨hbM, hm0, hm1, hiff, hwin⟩

theorem c8_score_monotonic_and_game_end_witness :
    Reachable (newGame 100 fullDeckList) ∧
    (0 : Int) < (newGame 100 fullDeckList).ruleMaxPoints ∧
    runAction (newGame 100 fullDeckList) (some (Action.drawFromDrawPile 1)) [] =
      (none, (runAction (newGame 100 fullDeckList) (some (Action.drawFromDrawPile 1)) []).2) ∧
    ((runAction (newGame 100 fullDeckList)
        (some (Action.drawFromDrawPile 1)) []).2.ruleMaxPoints =
          (newGame 100 fullDeckList).ruleMaxPoints ∧
      (newGame 100 fullDeckList).player0.score ≤
        (runAction (newGame 100 fullDeckList)
          (some (Action.drawFromDrawPile 1)) []).2.player0.score ∧
      (newGame 100 fullDeckList).player1.score ≤
        (runAction (newGame 100 fullDeckList)
          (some (Action.drawFromDrawPile 1)) []).2.player1.score ∧
      ((runAction (newGame 100 fullDeckList)
          (some (Action.drawFromDrawPile 1)) []).2.isGameEnded = true ↔
        ((newGame 100 fullDeckList).ruleMaxPoints ≤
            (runAction (newGame 100 fullDeckList)
              (some (Action.drawFromDrawPile 1)) []).2.player0.score ∨
          (newGame 100 fullDeckList).ruleMaxPoints ≤
            (runAction (newGame 100 fullDeckList)
              (some (Action.drawFromDrawPile 1)) []).2.player1.score)) ∧
      ((runAction (newGame 100 fullDeckList)
          (some (Action.drawFromDrawPile 1)) []).2.isGameEnded = true →
        (((runAction (newGame 100 fullDeckList)
              (some (Action.drawFromDrawPile 1)) []).2.winnerPlayerID = 0 ∧
            (runAction (newGame 100 fullDeckList)
              (some (Action.drawFromDrawPile 1)) []).2.player0.score =
              (newGame 100 fullDeckList).ruleMaxPoints ∧
            (runAction (newGame 100 fullDeckList)
              (some (Action.drawFromDrawPile 1)) []).2.player1.score <
              (newGame 100 fullDeckList).ruleMaxPoints) ∨
          ((runAction (newGame 100 fullDeckList)
              (some (Action.drawFromDrawPile 1)) []).2.winnerPlayerID = 1 ∧
            (runAction (newGame 100 fullDeckList)
              (some (Action.drawFromDrawPile 1)) []).2.player1.score =
              (newGame 100 fullDeckList).ruleMaxPoints ∧
            (runAction (newGame 100 fullDeckList)
              (some (Action.drawFromDrawPile 1)) []).2.player0.score <
              (newGame 100 fullDeckList).ruleMaxPoints)))) :=
  ⟨Reachable.base 100 fullDeckList (List.Perm.refl _), by decide, by decide,
    c8_score_monotonic_and_game_end (newGame 100 fullDeckList)
      (Action.drawFromDrawPile 1) []
      (runAction (newGame 100 fullDeckList) (some (Action.drawFromDrawPile 1)) []).2
      (Reachable.base 100 fullDeckList (List.Perm.refl _)) (by decide) (by decide)⟩

/-! ### Meld-candidate generator: validity and completeness -/

theorem generateCombinations_length :
    ∀ (l : List Card) (k : Nat) (c : List Card),
      c ∈ generateCombinations l k → c.length = k := by
  intro l
  induction l with
  | nil =>
    intro k c hc
    cases k with
    | zero => simp [generateCombinations] at hc; simp [hc]
    | succ k => simp [generateCombinations] at hc
  | cons x t ih =>
    intro k c hc
    cases k with
    | zero => simp [generateCombinations] at hc; simp [hc]
    | succ k =>
      simp only [generateCombinations] at hc
      split at hc
      · simp at hc
      · rcases List.mem_append.mp hc with hc1 | hc2
        · rcases List.mem_map.mp hc1 with ⟨c2, hc2m, rfl⟩
          simp [ih k c2 hc2m]
        · exact ih (k + 1) c hc2

theorem setLoop_not_seen :
    ∀ (l : List Card) (seen : List String) (rank : Int), setLoop rank seen l = true →
      ∀ c ∈ l, ¬ seen.contains c.suit = true := by
  intro l
  induction l with
  | nil => intro seen rank _ c hc; cases hc
  | cons x t ih =>
    intro seen rank h c hc
    simp only [setLoop] at h
    split at h
    · cases h
    · split at h
      · cases h
      · rcases List.mem_cons.mp hc with rfl | hc2
        · assumption
        · have h2 := ih (x.suit :: seen) rank h c hc2
          intro hcontra
          apply h2
          simp only [List.contains_cons, Bool.or_eq_true]
          exact Or.inr hcontra

theorem setLoop_spec :
    ∀ (l : List Card) (seen : List String) (rank : Int), setLoop rank seen l = true →
      (∀ c ∈ l, c.number = rank) ∧ (l.map (fun c => c.suit)).Nodup := by
  intro l
  induction l with
  | nil => intro seen rank _; simp
  | cons x t ih =>
    intro seen rank h
    simp only [setLoop] at h
    split at h
    · cases h
    · split at h
      · cases h
      · rename_i hnum hseen
        obtain ⟨ihnum, ihnodup⟩ := ih (x.suit :: seen) rank h
        refine ⟨?_, ?_⟩
        · intro c hc
          rcases List.mem_cons.mp hc with rfl | hc2
          · simpa using hnum
          · exact ihnum c hc2
        · refine List.nodup_cons.mpr ⟨?_, ihnodup⟩
          intro hmem
          rcases List.mem_map.mp hmem with ⟨c, hc, hsuit⟩
          have := setLoop_not_seen t (x.suit :: seen) rank h c hc
          simp [hsuit] at this

theorem isValidSet_spec (cards : List Card) (h : isValidSet cards = true) :
    (∀ c1 ∈ cards, ∀ c2 ∈ cards, c1.number = c2.number) ∧
      cards.Pairwise (fun c1 c2 => c1.suit ≠ c2.suit) := by
  simp only [isValidSet] at h
  split at h
  · cases h
  · obtain ⟨hnum, hnodup⟩ := setLoop_spec cards [] _ h
    refine ⟨?_, ?_⟩
    · intro c1 h1 c2 h2
      rw [hnum c1 h1, hnum c2 h2]
    · exact (List.pairwise_map.mp hnodup)

theorem generateSetMeldActions_spec (hand : List Card) (pid : Int) :
    ∀ act ∈ generateSetMeldActions hand pid,
      ∃ cs, act = Action.meldCards cs MeldTypeSet pid ∧ cs.length = 3 ∧
        (∀ c1 ∈ cs, ∀ c2 ∈ cs, c1.number = c2.number) ∧
        cs.Pairwise (fun c1 c2 => c1.suit ≠ c2.suit) := by
  intro act hact
  simp only [generateSetMeldActions, List.mem_flatMap] at hact
  obtain ⟨rank, _, hmem⟩ := hact
  split at hmem
  · rcases List.mem_filterMap.mp hmem with ⟨combo, hcombo, hsome⟩
    split at hsome
    · rename_i hvalid
      injection hsome with hact2
      obtain ⟨hnum, hsuits⟩ := isValidSet_spec combo hvalid
      exact ⟨combo, hact2.symm, generateCombinations_length _ 3 combo hcombo, hnum, hsuits⟩
    · cases hsome
  · cases hmem

theorem splitBlock_append :
    ∀ (x : Card) (t : List Card), x :: t = (splitBlock x t).1 ++ (splitBlock x t).2 := by
  intro x t
  induction t generalizing x with
  | nil => simp [splitBlock]
  | cons y t ih =>
    simp only [splitBlock]
    split
    · simpa using ih y
    · simp

theorem splitBlock_head :
    ∀ (x : Card) (t : List Card), (splitBlock x t).1.head? = some x := by
  intro x t
  cases t with
  | nil => simp [splitBlock]
  | cons y t2 =>
    simp only [splitBlock]
    split <;> simp

theorem splitBlock_chain :
    ∀ (x : Card) (t : List Card),
      ((splitBlock x t).1).Chain' (fun u v => v.number = u.number + 1) := by
  intro x t
  induction t generalizing x with
  | nil => simp [splitBlock]
  | cons y t ih =>
    simp only [splitBlock]
    split
    · rename_i hy
      have h2 := ih y
      rcases hb : (splitBlock y t).1 with _ | ⟨z, b2⟩
      · simp
      · rw [hb] at h2
        have hz : z = y := by
          have := splitBlock_head y t
          rw [hb] at this
          simpa using this
        subst hz
        exact List.chain'_cons.mpr ⟨hy, h2⟩
    · simp

theorem splitBlock_fst_ne_nil (x : Card) (t : List Card) : (splitBlock x t).1 ≠ [] := by
  intro hnil
  have := splitBlock_head x t
  rw [hnil] at this
  cases this

theorem subRuns_spec (b : List Card) (run : List Card) (h : run ∈ subRuns b) :
    ∃ st len, 3 ≤ len ∧ st + len ≤ b.length ∧ run = (b.drop st).take len := by
  simp only [subRuns, List.mem_flatMap, List.mem_map, List.mem_range] at h
  obtain ⟨li, hli, st, hst, rfl⟩ := h
  exact ⟨st, li + 3, by omega, by omega, rfl⟩

theorem subRuns_mem (b : List Card) (st len : Nat) (h3 : 3 ≤ len)
    (hle : st + len ≤ b.length) : (b.drop st).take len ∈ subRuns b := by
  simp only [subRuns, List.mem_flatMap, List.mem_map, List.mem_range]
  refine ⟨len - 3, by omega, st, by omega, ?_⟩
  have hlen : len - 3 + 3 = len := by omega
  rw [hlen]

theorem findConsecutiveRuns_spec_aux :
    ∀ (N : Nat) (l : List Card), l.length ≤ N → ∀ run ∈ findConsecutiveRuns l,
      3 ≤ run.length ∧ run.Chain' (fun u v => v.number = u.number + 1) ∧ run ⊆ l := by
  intro N
  induction N with
  | zero =>
    intro l hl run hrun
    cases l with
    | nil => simp [findConsecutiveRuns] at hrun
    | cons x t => simp at hl
  | succ N ih =>
    intro l hl run hrun
    cases l with
    | nil => simp [findConsecutiveRuns] at hrun
    | cons x t =>
      simp only [findConsecutiveRuns] at hrun
      rcases List.mem_append.mp hrun with h1 | h2
      · split at h1
        · obtain ⟨st, len, h3, hle, rfl⟩ := subRuns_spec _ _ h1
          refine ⟨?_, ?_, ?_⟩
          · rw [List.length_take, List.length_drop]
            omega
          · exact ((splitBlock_chain x t).drop st).take len
          · intro c hc
            have hc2 : c ∈ (splitBlock x t).1 :=
              List.drop_subset _ _ (List.take_subset _ _ hc)
            rw [splitBlock_append x t]
            exact List.mem_append_left _ hc2
        · cases h1
      · have hlt : (splitBlock x t).2.length ≤ N := by
          have hsp := splitBlock_snd_length x t
          simp only [List.length_cons] at hl
          omega
        obtain ⟨ha, hb, hc⟩ := ih _ hlt run h2
        refine ⟨ha, hb, ?_⟩
        intro c hcc
        rw [splitBlock_append x t]
        exact List.mem_append_right _ (hc hcc)

theorem findConsecutiveRuns_spec (l run : List Card) (h : run ∈ findConsecutiveRuns l) :
    3 ≤ run.length ∧ run.Chain' (fun u v => v.number = u.number + 1) ∧ run ⊆ l :=
  findConsecutiveRuns_spec_aux l.length l le_rfl run h

theorem generateRunMeldActions_spec (hand : List Card) (pid : Int) :
    ∀ act ∈ generateRunMeldActions hand pid,
      ∃ cs, act = Action.meldCards cs MeldTypeRun pid ∧ 3 ≤ cs.length ∧
        (∀ c1 ∈ cs, ∀ c2 ∈ cs, c1.suit = c2.suit) ∧
        cs.Chain' (fun c1 c2 => c2.number = c1.number + 1) := by
  intro act hact
  simp only [generateRunMeldActions, List.mem_flatMap] at hact
  obtain ⟨su, hsu, hmem⟩ := hact
  split at hmem
  · rcases List.mem_map.mp hmem with ⟨run, hrun, rfl⟩
    obtain ⟨hlen, hchain, hsub⟩ := findConsecutiveRuns_spec _ _ hrun
    refine ⟨run, rfl, hlen, ?_, hchain⟩
    have hsuit : ∀ c ∈ run, c.suit = su := by
      intro c hc
      have hcs := hsub hc
      have hcf := (selSort_perm _).subset hcs
      simp only [List.mem_filter, decide_eq_true_eq] at hcf
      exact hcf.2
    intro c1 h1 c2 h2
    rw [hsuit c1 h1, hsuit c2 h2]
  · cases hmem

theorem innerPass_min (x : Card) (t : List Card) :
    (innerPass x t).1.number ≤ x.number ∧
      ∀ z ∈ (innerPass x t).2, (innerPass x t).1.number ≤ z.number := by
  induction t generalizing x with
  | nil => simp [innerPass]
  | cons y t ih =>
    simp only [innerPass]
    split
    · rename_i hlt
      obtain ⟨ih1, ih2⟩ := ih y
      refine ⟨le_trans ih1 (le_of_lt hlt), ?_⟩
      intro z hz
      rcases List.mem_cons.mp hz with rfl | hz2
      · exact le_trans ih1 (le_of_lt hlt)
      · exact ih2 z hz2
    · rename_i hge
      obtain ⟨ih1, ih2⟩ := ih x
      refine ⟨ih1, ?_⟩
      intro z hz
      rcases List.mem_cons.mp hz with rfl | hz2
      · exact le_trans ih1 (le_of_not_lt hge)
      · exact ih2 z hz2

theorem selSort_sorted_aux :
    ∀ (N : Nat) (l : List Card), l.length ≤ N →
      (selSort l).Pairwise (fun u v => u.number ≤ v.number) := by
  intro N
  induction N with
  | zero =>
    intro l hl
    cases l with
    | nil => simp [selSort]
    | cons x t => simp at hl
  | succ N ih =>
    intro l hl
    cases l with
    | nil => simp [selSort]
    | cons x t =>
      rw [selSort]
      refine List.pairwise_cons.mpr ⟨?_, ?_⟩
      · intro z hz
        have hz2 : z ∈ (innerPass x t).2 := (selSort_perm _).subset hz
        exact (innerPass_min x t).2 z hz2
      · refine ih _ ?_
        rw [innerPass_snd_length]
        simpa using hl

theorem selSort_sorted (l : List Card) :
    (selSort l).Pairwise (fun u v => u.number ≤ v.number) :=
  selSort_sorted_aux l.length l le_rfl

/-- The contiguous run of `n` cards of suit `s` starting at number `a`:
the shape of run that C7 claims is always emitted. -/
def consecList (a : Int) : Nat → String → List Card
  | 0, _ => []
  | n + 1, s => ⟨a, s⟩ :: consecList (a + 1) n s

theorem consecList_length : ∀ (n : Nat) (a : Int) (s : String),
    (consecList a n s).length = n := by
  intro n
  induction n with
  | zero => intro a s; rfl
  | succ n ih => intro a s; simp [consecList, ih]

theorem consecList_mem_iff : ∀ (n : Nat) (a : Int) (s : String) (c : Card),
    c ∈ consecList a n s ↔ (c.suit = s ∧ a ≤ c.number ∧ c.number < a + n) := by
  intro n
  induction n with
  | zero =>
    intro a s c
    simp only [consecList, List.not_mem_nil, false_iff, not_and]
    intro _ h1
    omega
  | succ n ih =>
    intro a s c
    simp only [consecList, List.mem_cons, ih (a + 1) s c]
    constructor
    · rintro (rfl | ⟨h1, h2, h3⟩)
      · refine ⟨rfl, le_refl _, ?_⟩
        show a < a + ((n + 1 : Nat) : Int)
        omega
      · refine ⟨h1, by omega, by omega⟩
    · rintro ⟨h1, h2, h3⟩
      by_cases hc : c.number = a
      · left
        cases c
        simp only at h1 hc
        subst h1
        subst hc
        rfl
      · right
        refine ⟨h1, by omega, by omega⟩

theorem consecList_chain : ∀ (n : Nat) (a : Int) (s : String),
    (consecList a n s).Chain' (fun u v => v.number = u.number + 1) := by
  intro n
  induction n with
  | zero => intro a s; simp [consecList]
  | succ n ih =>
    intro a s
    cases n with
    | zero => simp [consecList]
    | succ m =>
      refine List.chain'_cons.mpr ⟨rfl, ih (a + 1) s⟩

theorem consecList_nodup (a : Int) (n : Nat) (s : String) :
    (consecList a n s).Nodup :=
  pairwise_lt_nodup _ (chain_succ_pairwise_lt _ (consecList_chain n a s))

theorem consecList_drop : ∀ (j n : Nat) (a : Int) (s : String),
    (consecList a n s).drop j = consecList (a + (j : Int)) (n - j) s := by
  intro j
  induction j with
  | zero =>
    intro n a s
    simp
  | succ j ih =>
    intro n a s
    cases n with
    | zero => simp [consecList]
    | succ n =>
      simp only [consecList, List.drop_succ_cons]
      rw [ih n (a + 1) s]
      have h1 : a + 1 + (j : Int) = a + ((j + 1 : Nat) : Int) := by push_cast; ring
      have h2 : n - j = n + 1 - (j + 1) := by omega
      rw [h1, h2]

theorem consecList_take : ∀ (n m : Nat) (a : Int) (s : String), n ≤ m →
    (consecList a m s).take n = consecList a n s := by
  intro n
  induction n with
  | zero => intro m a s _; simp [consecList]
  | succ n ih =>
    intro m a s h
    cases m with
    | zero => omega
    | succ m =>
      simp only [consecList, List.take_succ_cons]
      rw [ih m (a + 1) s (by omega)]

theorem splitBlock_break :
    ∀ (x : Card) (t : List Card) (y : Card),
      (splitBlock x t).2.head? = some y →
      y.number ≠ x.number + ((splitBlock x t).1.length : Int) := by
  intro x t
  induction t generalizing x with
  | nil => intro y hy; simp [splitBlock] at hy
  | cons w t ih =>
    intro y hy
    simp only [splitBlock] at hy ⊢
    by_cases hw : w.number = x.number + 1
    · rw [if_pos hw] at hy ⊢
      simp only [List.length_cons]
      have hih := ih w y hy
      intro hc
      apply hih
      rw [hc, hw]
      push_cast
      ring
    · rw [if_neg hw] at hy ⊢
      simp only [List.head?_cons, Option.some.injEq] at hy
      subst hy
      simp only [List.length_cons, List.length_nil]
      intro hc
      apply hw
      rw [hc]
      norm_num

theorem block_eq_consec (s : String) :
    ∀ (b : List Card), b.Chain' (fun u v => v.number = u.number + 1) →
      (∀ c ∈ b, c.suit = s) → ∀ x, b.head? = some x →
      b = consecList x.number b.length s := by
  intro b
  induction b with
  | nil => intro _ _ x hx; cases hx
  | cons c b ih =>
    intro hchain hsuit x hx
    simp only [List.head?_cons, Option.some.injEq] at hx
    subst hx
    cases b with
    | nil =>
      rcases c with ⟨num, su⟩
      have hs : su = s := hsuit ⟨num, su⟩ (List.mem_cons_self _ _)
      subst hs
      rfl
    | cons d b2 =>
      obtain ⟨hcd, htail⟩ := List.chain'_cons.mp hchain
      have hih := ih htail (fun e he => hsuit e (List.mem_cons_of_mem _ he)) d rfl
      simp only [List.length_cons, consecList]
      refine congrArg₂ List.cons ?_ ?_
      · rcases c with ⟨num, su⟩
        have hs : su = s := hsuit ⟨num, su⟩ (List.mem_cons_self _ _)
        subst hs
        rfl
      · rw [hih, hcd]
        rfl

theorem runs_complete_aux :
    ∀ (N : Nat) (l : List Card) (s : String) (a : Int) (n : Nat),
      l.length ≤ N →
      l.Pairwise (fun u v => u.number < v.number) →
      (∀ c ∈ l, c.suit = s) →
      3 ≤ n →
      (∀ k : Nat, k < n → (⟨a + (k : Int), s⟩ : Card) ∈ l) →
      consecList a n s ∈ findConsecutiveRuns l := by
  intro N
  induction N with
  | zero =>
    intro l s a n hl hp hs h3 hmem
    cases l with
    | nil => exact absurd (hmem 0 (by omega)) (List.not_mem_nil _)
    | cons x t => simp at hl
  | succ N ih =>
    intro l s a n hl hp hs h3 hmem
    cases l with
    | nil => exact absurd (hmem 0 (by omega)) (List.not_mem_nil _)
    | cons x t =>
      simp only [findConsecutiveRuns]
      have hsplit := splitBlock_append x t
      have hchain := splitBlock_chain x t
      have hhead := splitBlock_head x t
      have hbne := splitBlock_fst_ne_nil x t
      have hbsub : ∀ c ∈ (splitBlock x t).1, c ∈ x :: t := by
        intro c hc
        rw [hsplit]
        exact List.mem_append_left _ hc
      have hrsub : ∀ c ∈ (splitBlock x t).2, c ∈ x :: t := by
        intro c hc
        rw [hsplit]
        exact List.mem_append_right _ hc
      have hbeq : (splitBlock x t).1 =
          consecList x.number (splitBlock x t).1.length s :=
        block_eq_consec s _ hchain (fun c hc => hs c (hbsub c hc)) x hhead
      have hLpos : 1 ≤ (splitBlock x t).1.length := List.length_pos.mpr hbne
      have hp2 : ((splitBlock x t).1 ++ (splitBlock x t).2).Pairwise
          (fun u v => u.number < v.number) := by
        rw [← hsplit]
        exact hp
      obtain ⟨hpb, hpr, hcross⟩ := List.pairwise_append.mp hp2
      have hblocknum : ∀ c ∈ (splitBlock x t).1,
          c.number < x.number + ((splitBlock x t).1.length : Int) := by
        intro c hc
        rw [hbeq] at hc
        exact ((consecList_mem_iff _ _ _ _).mp hc).2.2
      have hrbig : ∀ c ∈ (splitBlock x t).2,
          x.number + ((splitBlock x t).1.length : Int) + 1 ≤ c.number := by
        rcases hrr : (splitBlock x t).2 with _ | ⟨y0, r2⟩
        · intro c hc
          exact absurd hc (List.not_mem_nil _)
        · have hbrk := splitBlock_break x t y0 (by rw [hrr]; rfl)
          have hlmem' : (⟨x.number + (((splitBlock x t).1.length - 1 : Nat) : Int), s⟩ : Card)
              ∈ consecList x.number (splitBlock x t).1.length s := by
            rw [consecList_mem_iff]
            refine ⟨rfl, ?_, ?_⟩
            · show x.number ≤ x.number + (((splitBlock x t).1.length - 1 : Nat) : Int)
              omega
            · show x.number + (((splitBlock x t).1.length - 1 : Nat) : Int) <
                x.number + ((splitBlock x t).1.length : Int)
              omega
          rw [← hbeq] at hlmem'
          have hc1 := hcross _ hlmem' y0 (by rw [hrr]; exact List.mem_cons_self _ _)
          have hc1' : x.number + (((splitBlock x t).1.length - 1 : Nat) : Int) < y0.number := hc1
          have hy0big : x.number + ((splitBlock x t).1.length : Int) + 1 ≤ y0.number := by
            omega
          intro c hc
          rcases List.mem_cons.mp hc with rfl | hc2
          · exact hy0big
          · have hlt : y0.number < c.number := by
              rw [hrr] at hpr
              exact (List.pairwise_cons.mp hpr).1 c hc2
            omega
      have hage : x.number ≤ a := by
        have h0 := hmem 0 (by omega)
        have hxy : ∀ c ∈ x :: t, x.number ≤ c.number := by
          intro c hc
          rcases List.mem_cons.mp hc with rfl | hc2
          · exact le_refl _
          · exact le_of_lt ((List.pairwise_cons.mp hp).1 c hc2)
        have h0n := hxy _ h0
        have h0n' : x.number ≤ a + ((0 : Nat) : Int) := h0n
        omega
      by_cases hcase : a + (n : Int) ≤ x.number + ((splitBlock x t).1.length : Int)
      · refine List.mem_append.mpr (Or.inl ?_)
        have hb3 : 3 ≤ (splitBlock x t).1.length := by omega
        rw [if_pos hb3]
        have hjx : (((a - x.number).toNat : Nat) : Int) = a - x.number :=
          Int.toNat_of_nonneg (by omega)
        have harg : x.number + ((a - x.number).toNat : Int) = a := by omega
        have hslice : (((splitBlock x t).1.drop (a - x.number).toNat).take n)
            = consecList a n s := by
          rw [hbeq, consecList_drop, harg, consecList_take]
          omega
        rw [← hslice]
        exact subRuns_mem _ _ _ h3 (by omega)
      · push_neg at hcase
        have haL : x.number + ((splitBlock x t).1.length : Int) + 1 ≤ a := by
          by_contra hlt
          push_neg at hlt
          have hkn : (x.number + ((splitBlock x t).1.length : Int) - a).toNat < n := by omega
          have hcard := hmem _ hkn
          rw [hsplit] at hcard
          rcases List.mem_append.mp hcard with hcb | hcr
          · have h2 := hblocknum _ hcb
            have h2' : a + (((x.number + ((splitBlock x t).1.length : Int) - a).toNat : Nat) : Int)
                < x.number + ((splitBlock x t).1.length : Int) := h2
            omega
          · have h2 := hrbig _ hcr
            have h2' : x.number + ((splitBlock x t).1.length : Int) + 1
                ≤ a + (((x.number + ((splitBlock x t).1.length : Int) - a).toNat : Nat) : Int) := h2
            omega
        refine List.mem_append.mpr (Or.inr ?_)
        refine ih _ s a n ?_ hpr (fun c hc => hs c (hrsub c hc)) h3 ?_
        · have hsp := splitBlock_snd_length x t
          simp only [List.length_cons] at hl
          omega
        · intro k hk
          have hcard := hmem k hk
          rw [hsplit] at hcard
          rcases List.mem_append.mp hcard with hcb | hcr
          · exfalso
            have h2 := hblocknum _ hcb
            have h2' : a + (k : Int) < x.number + ((splitBlock x t).1.length : Int) := h2
            omega
          · exact hcr

theorem generateRunMeldActions_complete (hand : List Card) (pid : Int)
    (hnd : hand.Nodup) (s : String) (a : Int) (n : Nat) (h3 : 3 ≤ n)
    (hmem : ∀ k : Nat, k < n → (⟨a + (k : Int), s⟩ : Card) ∈ hand) :
    Action.meldCards (consecList a n s) MeldTypeRun pid ∈ generateRunMeldActions hand pid := by
  have hcard0 := hmem 0 (by omega)
  have hsdedup : s ∈ (hand.map (fun c => c.suit)).dedup := by
    rw [List.mem_dedup]
    exact List.mem_map.mpr ⟨_, hcard0, rfl⟩
  have htargets : ∀ k : Nat, k < n →
      (⟨a + (k : Int), s⟩ : Card) ∈ hand.filter (fun c => c.suit = s) := by
    intro k hk
    rw [List.mem_filter]
    exact ⟨hmem k hk, by simp⟩
  have hgnd : (hand.filter (fun c => c.suit = s)).Nodup := hnd.filter _
  have hperm := selSort_perm (hand.filter (fun c => c.suit = s))
  have hsorted := selSort_sorted (hand.filter (fun c => c.suit = s))
  have hsnd : (selSort (hand.filter (fun c => c.suit = s))).Nodup :=
    hperm.nodup_iff.mpr hgnd
  have hsuits : ∀ c ∈ selSort (hand.filter (fun c => c.suit = s)), c.suit = s := by
    intro c hc
    have h2 := (List.mem_filter.mp (hperm.subset hc)).2
    exact of_decide_eq_true h2
  have hstrict : (selSort (hand.filter (fun c => c.suit = s))).Pairwise
      (fun u v => u.number < v.number) := by
    refine List.Pairwise.imp_of_mem ?_ (hsorted.and hsnd)
    intro u v hu hv h
    obtain ⟨hle, hne⟩ := h
    refine lt_of_le_of_ne hle ?_
    intro heq
    apply hne
    have hsu := hsuits u hu
    have hsv := hsuits v hv
    cases u with
    | mk un us =>
      cases v with
      | mk vn vs =>
        have hsu' : us = s := hsu
        have hsv' : vs = s := hsv
        have heq' : un = vn := heq
        subst hsu'
        subst hsv'
        subst heq'
        rfl
  have htargets' : ∀ k : Nat, k < n →
      (⟨a + (k : Int), s⟩ : Card) ∈ selSort (hand.filter (fun c => c.suit = s)) :=
    fun k hk => hperm.mem_iff.mpr (htargets k hk)
  have hrun := runs_complete_aux (selSort (hand.filter (fun c => c.suit = s))).length
    (selSort (hand.filter (fun c => c.suit = s))) s a n le_rfl hstrict hsuits h3 htargets'
  have hsubg : consecList a n s ⊆ hand.filter (fun c => c.suit = s) := by
    intro c hc
    rw [consecList_mem_iff] at hc
    obtain ⟨hcs, h1, h2⟩ := hc
    have hkn : (c.number - a).toNat < n := by omega
    have hcm := htargets _ hkn
    have hceq : (⟨a + (((c.number - a).toNat : Nat) : Int), s⟩ : Card) = c := by
      cases c with
      | mk num su =>
        have hsu : su = s := hcs
        have h1' : a ≤ num := h1
        have h2' : num < a + (n : Int) := h2
        refine congrArg₂ Card.mk ?_ ?_
        · show a + (((num - a).toNat : Nat) : Int) = num
          omega
        · exact hsu.symm
    rw [hceq] at hcm
    exact hcm
  have hglen : 3 ≤ (hand.filter (fun c => c.suit = s)).length := by
    have hsp := (consecList_nodup a n s).subperm hsubg
    have hlen := hsp.length_le
    rw [consecList_length] at hlen
    omega
  simp only [generateRunMeldActions, List.mem_flatMap]
  refine ⟨s, hsdedup, ?_⟩
  rw [if_pos hglen]
  exact List.mem_map.mpr ⟨consecList a n s, hrun, rfl⟩

/-- C7 counterexample to the claim as stated over every hand: in the hand
`[3♦, 4♦, 4♦, 5♦]` (a hand with a duplicated card) the suit ♦ contains the
maximal consecutive-rank run 3,4,5 of length 3, yet `generateRunMeldActions`
emits no run candidate at all: the duplicated 4 breaks the consecutive block
scan of `findConsecutiveRuns` after sorting. -/
theorem c7_counterexample :
    (∀ k : Nat, k < 3 → (⟨3 + (k : Int), "o"⟩ : Card) ∈
        ([⟨3, "o"⟩, ⟨4, "o"⟩, ⟨4, "o"⟩, ⟨5, "o"⟩] : List Card)) ∧
      generateRunMeldActions [⟨3, "o"⟩, ⟨4, "o"⟩, ⟨4, "o"⟩, ⟨5, "o"⟩] 0 = [] := by
  constructor
  · decide
  · simp [generateRunMeldActions, findConsecutiveRuns, splitBlock, subRuns, selSort,
      innerPass, List.dedup, List.pwFilter]

/-- C7: meld-candidate generator validity and completeness.  Every set
candidate emitted by `generateSetMeldActions` is a meld-cards action of three
cards of one rank with pairwise distinct suits; every run candidate emitted by
`generateRunMeldActions` is a meld-cards action whose cards share one suit and
whose ranks ascend consecutively with length at least 3; and on a
duplicate-free hand, every consecutive ascending sequence of `n ≥ 3` ranks of
one suit whose cards are all present in the hand — in particular every
contiguous sub-run of length 3..L of a maximal run of length L ≥ 3 — is
emitted as a run candidate. -/
theorem c7_meld_generator (hand : List Card) (pid : Int) :
    (∀ act ∈ generateSetMeldActions hand pid,
      ∃ cs, act = Action.meldCards cs MeldTypeSet pid ∧ cs.length = 3 ∧
        (∀ c1 ∈ cs, ∀ c2 ∈ cs, c1.number = c2.number) ∧
        cs.Pairwise (fun c1 c2 => c1.suit ≠ c2.suit)) ∧
    (∀ act ∈ generateRunMeldActions hand pid,
      ∃ cs, act = Action.meldCards cs MeldTypeRun pid ∧ 3 ≤ cs.length ∧
        (∀ c1 ∈ cs, ∀ c2 ∈ cs, c1.suit = c2.suit) ∧
        cs.Chain' (fun c1 c2 => c2.number = c1.number + 1)) ∧
    (hand.Nodup → ∀ (s : String) (a : Int) (n : Nat), 3 ≤ n →
      (∀ k : Nat, k < n → (⟨a + (k : Int), s⟩ : Card) ∈ hand) →
      Action.meldCards (consecList a n s) MeldTypeRun pid ∈
        generateRunMeldActions hand pid) :=
  ⟨generateSetMeldActions_spec hand pid, generateRunMeldActions_spec hand pid,
    fun hnd s a n h3 hmem =>
      generateRunMeldActions_complete hand pid hnd s a n h3 hmem⟩

theorem c7_meld_generator_witness :
    Action.meldCards (consecList 1 3 "a") MeldTypeRun 0 ∈
      generateRunMeldActions [⟨1, "a"⟩, ⟨2, "a"⟩, ⟨3, "a"⟩] 0 :=
  (c7_meld_generator [⟨1, "a"⟩, ⟨2, "a"⟩, ⟨3, "a"⟩] 0).2.2 (by decide) "a" 1 3
    (by decide) (by decide)

end Chinchon
